import Mathlib

/-!
Verification development for a named-entity-linking annotator.

The program walks the views of an input container, picks out views produced
by an upstream NER stage, resolves each entity mention against an external
knowledge base, emits entity-link records, indexes dependency edges by child
position, and emits relation records for pairs of resolved entities that
share a syntactic head.  Below, the data model and the per-view processing
pipeline are embedded as executable Lean functions; Python dictionaries are
modelled as insertion-ordered association lists, and Python exceptions
(KeyError / TypeError) as `Except String`.
-/

/-- Property values: JSON-ish scalars appearing in annotation property maps
(strings, and integers for token positions). -/
inductive Value where
  | s (x : String)
  | n (x : Int)
deriving DecidableEq, Repr

/-- An insertion-ordered association list, the model of a Python dict. -/
def lookupA {κ α : Type} [DecidableEq κ] : List (κ × α) → κ → Option α
  | [], _ => none
  | (k0, v0) :: rest, k => if k0 = k then some v0 else lookupA rest k

/-- Python dict assignment: an existing key keeps its position and gets the
new value, a fresh key is appended at the end. -/
def insertA {κ α : Type} [DecidableEq κ] : List (κ × α) → κ → α → List (κ × α)
  | [], k, v => [(k, v)]
  | (k0, v0) :: rest, k, v =>
    if k0 = k then (k0, v) :: rest else (k0, v0) :: insertA rest k v

/-- Lookup with a default, the model of `collections.defaultdict` access. -/
def findD {κ α : Type} [DecidableEq κ] (m : List (κ × α)) (k : κ) (d : α) : α :=
  (lookupA m k).getD d

/-- Property maps of annotation records. -/
abbrev Props := List (String × Value)

/-- Python `d[k]`: the value when present, a `KeyError` otherwise. -/
def pget (m : Props) (k : String) : Except String Value :=
  match lookupA m k with
  | some v => Except.ok v
  | none => Except.error ("KeyError: " ++ k)

/-- Python `<` on property values: integer or lexicographic string
comparison; comparing a string with an integer raises a `TypeError`. -/
def vlt : Value → Value → Except String Bool
  | Value.n a, Value.n b => Except.ok (decide (a < b))
  | Value.s a, Value.s b => Except.ok (decide (a < b))
  | _, _ => Except.error "TypeError: unorderable types"

/-- Boolean view of `vlt`: true exactly when the comparison succeeds and
returns true. -/
def vltB (a b : Value) : Bool :=
  match vlt a b with
  | Except.ok true => true
  | _ => false

/-- Python `view_id + ':' + doc_id` on a property value: string
concatenation, a `TypeError` when the value is not a string. -/
def vconcat (vid : String) : Value → Except String Value
  | Value.s t => Except.ok (Value.s (vid ++ ":" ++ t))
  | Value.n _ => Except.error "TypeError: can only concatenate str"

/-- An input annotation record: a type tag plus a property map. -/
structure Ann where
  atType : String
  properties : Props
deriving DecidableEq, Repr

/-- An input view: identifier, producing-app identifier, the
contained-type-to-descriptor mapping, and the annotation records. -/
structure View where
  id : String
  app : String
  contains : List (String × Props)
  anns : List Ann
deriving DecidableEq, Repr

/-- An emitted annotation record. -/
structure OutAnn where
  atType : String
  id : String
  properties : Props
deriving DecidableEq, Repr

/-- An emitted view: the document id it was opened with and its records. -/
structure OutView where
  docid : Option String
  anns : List OutAnn
deriving DecidableEq, Repr

/-- The external knowledge-base search collaborator: surface text to a
ranked list of candidate matches (each a property map). -/
abbrev KB := Value → List Props

def UriNE : String := "http://vocab.lappsgrid.org/NamedEntity"
def UriDEP : String := "http://vocab.lappsgrid.org/SyntacticRelation"
def UriNEL : String := "http://vocab.lappsgrid.org/LinkedNamedEntity"
def UriNELR : String := "http://vocab.lappsgrid.org/LinkedNamedEntityRelation"

/-- The fixed display order of entity-link record properties. -/
def propOrder : List String :=
  ["root_i", "text", "label", "category", "description", "wikidata_id", "url", "id"]

/-- The candidate fields copied from a knowledge-base match, in the order
the program scans them. -/
def interestedKeys : List String := ["url", "label", "description"]

/-- Decimal digits with explicit fuel, so that the function is structurally
recursive and evaluates inside the kernel. -/
def decDigitsAux : Nat → Nat → List Char
  | 0, n => [Nat.digitChar n]
  | fuel + 1, n =>
    if n < 10 then [Nat.digitChar n]
    else decDigitsAux fuel (n / 10) ++ [Nat.digitChar (n % 10)]

/-- Decimal digits of a natural number, most significant first: the model
of `"%d"` formatting. -/
def decDigits (n : Nat) : List Char := decDigitsAux n n

/-- Decimal string of a natural number. -/
def natStr (n : Nat) : String := String.mk (decDigits n)

/-- The identifier-generator state: prefix string to current counter. -/
abbrev IdState := List (String × Nat)

/-- Counter value of a prefix (0 when the prefix is fresh). -/
def idCount (st : IdState) (pfx : String) : Nat := findD st pfx 0

/-- `Identifiers.new`: increment the counter of the prefix and return the
prefix concatenated with the new (1-based) counter value. -/
def idNew (st : IdState) (pfx : String) : String × IdState :=
  let n := idCount st pfx + 1
  (pfx ++ natStr n, insertA st pfx n)

/-- The document scope key of an annotation: its `document` property when
present, the implicit default key `0` otherwise. -/
def scopeOf (a : Ann) : Value := (lookupA a.properties "document").getD (Value.n 0)

/-- A dependency-edge entry of the child-to-head index: the fields kept
from a `SyntacticRelation` annotation. -/
structure DepEntry where
  dep : Value
  head_text : Value
  head_lemma : Value
  head_i : Value
deriving DecidableEq, Repr

/-- The per-scope child-to-head index. -/
abbrev C2H := List (Value × List (Value × DepEntry))

/-- The per-scope resolved-entity map (scope key to root position to the
stored entity-link properties). -/
abbrev Ints := List (Value × List (Value × Props))

/-- The `add_annotation` utility: document, start and end are added first
when present, then the given properties in order. -/
def addAnn (attype ident : String) (doc : Option Value) (st en : Option Value)
    (ps : Props) : OutAnn :=
  { atType := attype, id := ident,
    properties :=
      (match doc with | some dv => [("document", dv)] | none => []) ++
      (match st with | some v => [("start", v)] | none => []) ++
      (match en with | some v => [("end", v)] | none => []) ++ ps }

/-- The per-annotation document id of an entity record: the annotation's
`document` property, qualified by the source view id when one was passed. -/
def annDocId (vid : Option String) (a : Ann) : Except String (Option Value) :=
  match vid, lookupA a.properties "document" with
  | some v, some dv =>
    match vconcat v dv with
    | Except.ok r => Except.ok (some r)
    | Except.error e => Except.error e
  | _, d0 => Except.ok d0

/-- Build the stored properties of one resolved entity: the annotation's
text, category and root position, plus the candidate's id (as
`wikidata_id`), url, label and description when present, reordered into
the fixed display order. -/
def entityRecordProps (aprops : Props) (entry : Props) (t : Value) : Except String Props :=
  match pget aprops "category" with
  | Except.error e => Except.error e
  | Except.ok category =>
    match pget aprops "root_i" with
    | Except.error e => Except.error e
    | Except.ok rooti =>
      let ps1 : Props := [("text", t), ("category", category), ("root_i", rooti)]
      let ps2 : Props :=
        match lookupA entry "id" with
        | some v => insertA ps1 "wikidata_id" v
        | none => ps1
      let ps3 : Props := interestedKeys.foldl (fun acc k =>
        match lookupA entry k with
        | some v => insertA acc k v
        | none => acc) ps2
      Except.ok (propOrder.filterMap (fun k => (lookupA ps3 k).map (fun v => (k, v))))

/-- Process one annotation of the entity phase: on an entity annotation,
resolve its text against the knowledge base; on a match, emit an
entity-link record and store the resolved entity under its scope key and
root position. -/
def entityStep (kb : KB) (vid : Option String) (a : Ann) (ints : Ints) (ids : IdState) :
    Except String (List OutAnn × Ints × IdState) :=
  if a.atType = UriNE then
    match annDocId vid a with
    | Except.error e => Except.error e
    | Except.ok doc =>
      match pget a.properties "text" with
      | Except.error e => Except.error e
      | Except.ok t =>
        match (kb t).head? with
        | none => Except.ok ([], ints, ids)
        | some entry =>
          match entityRecordProps a.properties entry t with
          | Except.error e => Except.error e
          | Except.ok ps =>
            match pget a.properties "start", pget a.properties "end" with
            | Except.error e, _ => Except.error e
            | Except.ok _, Except.error e => Except.error e
            | Except.ok st, Except.ok en =>
              match pget a.properties "root_i" with
              | Except.error e => Except.error e
              | Except.ok rooti =>
                Except.ok
                  ([addAnn UriNEL (idNew ids "nel").1 doc (some st) (some en) ps],
                   insertA ints (scopeOf a) (insertA (findD ints (scopeOf a) []) rooti ps),
                   (idNew ids "nel").2)
  else Except.ok ([], ints, ids)

/-- The entity phase: fold `entityStep` over the view's annotations. -/
def entityLoop (kb : KB) (vid : Option String) :
    List Ann → Ints → IdState → Except String (List OutAnn × Ints × IdState)
  | [], ints, ids => Except.ok ([], ints, ids)
  | a :: rest, ints, ids =>
    match entityStep kb vid a ints ids with
    | Except.error e => Except.error e
    | Except.ok (o1, ints1, ids1) =>
      match entityLoop kb vid rest ints1 ids1 with
      | Except.error e => Except.error e
      | Except.ok (o2, ints2, ids2) => Except.ok (o1 ++ o2, ints2, ids2)

/-- Process one annotation of the dependency phase: index a
`SyntacticRelation` annotation by its scope key and child position. -/
def depStep (a : Ann) (c2h : C2H) : Except String C2H :=
  if a.atType = UriDEP then
    match pget a.properties "child_i" with
    | Except.error e => Except.error e
    | Except.ok child =>
      match pget a.properties "dep", pget a.properties "head_text",
            pget a.properties "head_lemma", pget a.properties "head_i" with
      | Except.error e, _, _, _ => Except.error e
      | Except.ok _, Except.error e, _, _ => Except.error e
      | Except.ok _, Except.ok _, Except.error e, _ => Except.error e
      | Except.ok _, Except.ok _, Except.ok _, Except.error e => Except.error e
      | Except.ok dp, Except.ok ht, Except.ok hl, Except.ok hi =>
        Except.ok (insertA c2h (scopeOf a)
          (insertA (findD c2h (scopeOf a) []) child ⟨dp, ht, hl, hi⟩))
  else Except.ok c2h

/-- The dependency phase: fold `depStep` over the view's annotations. -/
def depLoop : List Ann → C2H → Except String C2H
  | [], c2h => Except.ok c2h
  | a :: rest, c2h =>
    match depStep a c2h with
    | Except.error e => Except.error e
    | Except.ok c2h1 => depLoop rest c2h1

/-- The two child-to-head entries of a prospective pair exist in the scope
and carry the same head position. -/
def relCondB (c2hd : List (Value × DepEntry)) (i1 i2 : Value) : Bool :=
  match lookupA c2hd i1, lookupA c2hd i2 with
  | some ch1, some ch2 => ch1.head_i = ch2.head_i
  | _, _ => false

/-- Build the property map of one relation record; the representative
`rel_*` fields come from the first entity's child-to-head entry. -/
def buildRelProps (e1 e2 : Props) (ch1 : DepEntry) (ch2 : DepEntry) : Except String Props :=
  match pget e1 "text" with
  | Except.error e => Except.error e
  | Except.ok t1 =>
    match pget e1 "label" with
    | Except.error e => Except.error e
    | Except.ok l1 =>
      match pget e1 "root_i" with
      | Except.error e => Except.error e
      | Except.ok r1 =>
        match pget e1 "wikidata_id" with
        | Except.error e => Except.error e
        | Except.ok w1 =>
          match pget e2 "text" with
          | Except.error e => Except.error e
          | Except.ok t2 =>
            match pget e2 "label" with
            | Except.error e => Except.error e
            | Except.ok l2 =>
              match pget e2 "root_i" with
              | Except.error e => Except.error e
              | Except.ok r2 =>
                match pget e2 "wikidata_id" with
                | Except.error e => Except.error e
                | Except.ok w2 =>
                  Except.ok
                    [("e1_text", t1), ("e1_label", l1), ("e1_root_i", r1),
                     ("e1_wikidata_id", w1), ("e1_dep", ch1.dep),
                     ("e2_text", t2), ("e2_label", l2), ("e2_root_i", r2),
                     ("e2_wikidata_id", w2), ("e2_dep", ch2.dep),
                     ("rel_text", ch1.head_text), ("rel_lemma", ch1.head_lemma),
                     ("rel_i", ch1.head_i)]

/-- The document id attached to a relation record: nothing for the
implicit default scope, otherwise the scope key, qualified by the source
view id when one was passed. -/
def relDoc (vid : Option String) (d : Value) : Except String (Option Value) :=
  let d0 : Option Value := if d = Value.n 0 then none else some d
  match vid, d0 with
  | some v, some dv =>
    match vconcat v dv with
    | Except.ok r => Except.ok (some r)
    | Except.error e => Except.error e
  | _, _ => Except.ok d0

/-- One candidate pair of the relation search: emit a relation record when
the root positions are strictly ordered, both have child-to-head entries in
the scope, and the two entries' head positions agree. -/
def relStep (vid : Option String) (d : Value) (c2hd : List (Value × DepEntry))
    (p1 p2 : Value × Props) (ids : IdState) :
    Except String (Option OutAnn × IdState) :=
  match vlt p1.1 p2.1 with
  | Except.error e => Except.error e
  | Except.ok b =>
    match lookupA c2hd p1.1, lookupA c2hd p2.1 with
    | some ch1, some ch2 =>
      if b && (ch1.head_i = ch2.head_i) then
        match buildRelProps p1.2 p2.2 ch1 ch2 with
        | Except.error e => Except.error e
        | Except.ok ps =>
          match relDoc vid d with
          | Except.error e => Except.error e
          | Except.ok doc =>
            Except.ok (some (addAnn UriNELR (idNew ids "nelr").1 doc none none ps),
                       (idNew ids "nelr").2)
      else Except.ok (none, ids)
    | _, _ => Except.ok (none, ids)

/-- The inner loop of the relation search: one fixed first entity against
every resolved entity of the scope. -/
def relInner (vid : Option String) (d : Value) (c2hd : List (Value × DepEntry))
    (p1 : Value × Props) :
    List (Value × Props) → IdState → Except String (List OutAnn × IdState)
  | [], ids => Except.ok ([], ids)
  | p2 :: rest, ids =>
    match relStep vid d c2hd p1 p2 ids with
    | Except.error e => Except.error e
    | Except.ok (o, ids1) =>
      match relInner vid d c2hd p1 rest ids1 with
      | Except.error e => Except.error e
      | Except.ok (out, ids2) => Except.ok (o.toList ++ out, ids2)

/-- The outer loop of the relation search over one scope's resolved
entities. -/
def relOuter (vid : Option String) (d : Value) (c2hd : List (Value × DepEntry))
    (inner : List (Value × Props)) :
    List (Value × Props) → IdState → Except String (List OutAnn × IdState)
  | [], ids => Except.ok ([], ids)
  | p1 :: rest, ids =>
    match relInner vid d c2hd p1 inner ids with
    | Except.error e => Except.error e
    | Except.ok (out1, ids1) =>
      match relOuter vid d c2hd inner rest ids1 with
      | Except.error e => Except.error e
      | Except.ok (out2, ids2) => Except.ok (out1 ++ out2, ids2)

/-- The relation search over every document scope of the resolved-entity
map. -/
def relScopes (vid : Option String) (c2h : C2H) :
    Ints → IdState → Except String (List OutAnn × IdState)
  | [], ids => Except.ok ([], ids)
  | (d, inner) :: rest, ids =>
    match relOuter vid d (findD c2h d []) inner inner ids with
    | Except.error e => Except.error e
    | Except.ok (out1, ids1) =>
      match relScopes vid c2h rest ids1 with
      | Except.error e => Except.error e
      | Except.ok (out2, ids2) => Except.ok (out1 ++ out2, ids2)

/-- `_add_tool_output` for one eligible view: the entity phase, the
dependency phase, then the relation search; the emitted records are the
entity-link records followed by the relation records. -/
def addToolOutput (kb : KB) (anns : List Ann) (vid : Option String) (ids : IdState) :
    Except String (List OutAnn × IdState) :=
  match entityLoop kb vid anns [] ids with
  | Except.error e => Except.error e
  | Except.ok (entOut, ints, ids1) =>
    match depLoop anns [] with
    | Except.error e => Except.error e
    | Except.ok c2h =>
      match relScopes vid c2h ints ids1 with
      | Except.error e => Except.error e
      | Except.ok (relOut, ids2) => Except.ok (entOut ++ relOut, ids2)

/-- Character-list prefix test. -/
def isPrefixL : List Char → List Char → Bool
  | [], _ => true
  | _ :: _, [] => false
  | a :: as, b :: bs => a = b && isPrefixL as bs

/-- Character-list substring test. -/
def isInfixL (p : List Char) : List Char → Bool
  | [] => isPrefixL p []
  | c :: rest => isPrefixL p (c :: rest) || isInfixL p rest

/-- Split a character list on the slash character. -/
def splitSlash : List Char → List (List Char)
  | [] => [[]]
  | c :: rest =>
    if c = '/' then [] :: splitSlash rest
    else
      match splitSlash rest with
      | [] => [[c]]
      | seg :: segs => (c :: seg) :: segs

/-- `os.path.basename` on a type identifier: the part after the last
slash. -/
def basename (s : String) : String :=
  String.mk (((splitSlash s.data).getLast?).getD s.data)

/-- Python substring containment. -/
def hasSub (pat s : String) : Bool := isInfixL pat.data s.data

/-- A view is eligible when its producing-app identifier contains the
upstream-NER marker and its contained types include the entity type. -/
def eligibleView (v : View) : Bool :=
  hasSub "spacy_nlp" v.app &&
    (v.contains.map (fun c => basename c.1)).contains "NamedEntity"

/-- The view-level document id: scan the contained-type descriptors; a
`NamedEntity` descriptor carrying a `document` sub-field sets the id to
the view's identifier, a `:` separator, and the sub-field value. -/
def viewDocId (v : View) : Except String (Option String) :=
  v.contains.foldlM (fun acc c =>
    if basename c.1 = "NamedEntity" then
      match lookupA c.2 "document" with
      | some (Value.s t) => Except.ok (some (v.id ++ ":" ++ t))
      | some (Value.n _) => Except.error "TypeError: can only concatenate str"
      | none => Except.ok acc
    else Except.ok acc) none

/-- `_annotate`'s view scan: open one output view per eligible view; the
source view id is passed down for per-annotation document resolution
exactly when no view-level document id was found. -/
def annotateViews (kb : KB) : List View → IdState → Except String (List OutView × IdState)
  | [], ids => Except.ok ([], ids)
  | v :: rest, ids =>
    if eligibleView v then
      match viewDocId v with
      | Except.error e => Except.error e
      | Except.ok doc =>
        match addToolOutput kb v.anns
            (match doc with | none => some v.id | some _ => none) ids with
        | Except.error e => Except.error e
        | Except.ok (recs, ids1) =>
          match annotateViews kb rest ids1 with
          | Except.error e => Except.error e
          | Except.ok (outs, ids2) =>
            Except.ok ({ docid := doc, anns := recs } :: outs, ids2)
    else annotateViews kb rest ids

/-- The top-level annotate call: reset the identifier counters, then scan
the container's views. -/
def annotate (kb : KB) (views : List View) : Except String (List OutView) :=
  match annotateViews kb views [] with
  | Except.error e => Except.error e
  | Except.ok (outs, _) => Except.ok outs

/-- The scenario-1 collaborator: one match carrying id, label, description
and url. -/
def kbScenario1 : KB := fun _ =>
  [[("id", Value.s "Q90"), ("label", Value.s "Paris"),
    ("description", Value.s "capital of France"),
    ("url", Value.s "https://www.wikidata.org/wiki/Q90")]]

/-- The scenario-1 view exactly as the claim states it: one entity
annotation with text, root position, start and end only. -/
def viewScenario1 : View :=
  { id := "v1", app := "http://apps.clams.ai/spacy_nlp",
    contains := [("http://vocab.lappsgrid.org/NamedEntity", [("document", Value.s "d1")])],
    anns := [{ atType := UriNE, properties :=
      [("text", Value.s "Paris"), ("root_i", Value.n 3),
       ("start", Value.n 0), ("end", Value.n 5)] }] }

/-- The scenario-1 view with the category property the program requires. -/
def viewScenario1Cat : View :=
  { id := "v1", app := "http://apps.clams.ai/spacy_nlp",
    contains := [("http://vocab.lappsgrid.org/NamedEntity", [("document", Value.s "d1")])],
    anns := [{ atType := UriNE, properties :=
      [("text", Value.s "Paris"), ("category", Value.s "GPE"), ("root_i", Value.n 3),
       ("start", Value.n 0), ("end", Value.n 5)] }] }


/-- Both root positions have child-to-head entries with equal heads AND the
strict order holds: the full emission condition of one candidate pair. -/
def emitCondB (c2hd : List (Value × DepEntry)) (i1 i2 : Value) : Bool :=
  vltB i1 i2 && relCondB c2hd i1 i2

/-- A relation record for the ordered root pair `(i1, i2)`. -/
def isRelFor (i1 i2 : Value) (r : OutAnn) : Bool :=
  (lookupA r.properties "e1_root_i" == some i1) &&
  (lookupA r.properties "e2_root_i" == some i2)

/-- Number of relation records emitted for the ordered root pair. -/
def relCount (out : List OutAnn) (i1 i2 : Value) : Nat :=
  (out.filter (isRelFor i1 i2)).length


/-- An entity annotation whose knowledge-base search returns a match. -/
def isMatchedNE (kb : KB) (a : Ann) : Bool :=
  (a.atType == UriNE) &&
    (match lookupA a.properties "text" with
     | some t => !(kb t).isEmpty
     | none => false)

/-- The properties stored for an entity annotation when it resolves. -/
def resolvedProps (kb : KB) (a : Ann) : Option Props :=
  match lookupA a.properties "text" with
  | some t =>
    match (kb t).head? with
    | some entry => (entityRecordProps a.properties entry t).toOption
    | none => none
  | none => none


/-- Correspondence between an eligible source view and the output view
opened for it: the output view carries the view-level document id, and its
records are the tool output computed with per-annotation qualification by
the source view id exactly when no view-level document id was found. -/
def viewMatches (kb : KB) (v : View) (o : OutView) : Prop :=
  viewDocId v = Except.ok o.docid ∧
  ∃ ids ids', addToolOutput kb v.anns
    (match o.docid with | none => some v.id | some _ => none) ids =
      Except.ok (o.anns, ids')


/-- The identifiers a prefix emits: the prefix concatenated with the
successive counter values c+1, c+2, ..., c+n. -/
def idsFrom (pfx : String) (c n : Nat) : List String :=
  (List.range n).map (fun k => pfx ++ natStr (c + k + 1))

/-- The identifier trace of one segment of emitted records: the records'
identifiers are the prefix's consecutive counter values starting from the
state's counter, and the final state's counter advanced by the record
count. -/
def idTrace (pfx : String) (out : List OutAnn) (ids ids' : IdState) : Prop :=
  out.map (fun r => r.id) = idsFrom pfx (idCount ids pfx) out.length ∧
  idCount ids' pfx = idCount ids pfx + out.length

/-! ### Association-list lemmas -/

theorem lookupA_insertA_self {κ α : Type} [DecidableEq κ] (m : List (κ × α)) (k : κ) (v : α) :
    lookupA (insertA m k v) k = some v := by
  induction m with
  | nil => simp [insertA, lookupA]
  | cons p rest ih =>
    by_cases h : p.1 = k
    · simp [insertA, lookupA, h]
    · simp [insertA, lookupA, h, ih]

theorem lookupA_insertA_ne {κ α : Type} [DecidableEq κ] (m : List (κ × α)) (k k' : κ) (v : α)
    (h : k' ≠ k) : lookupA (insertA m k v) k' = lookupA m k' := by
  induction m with
  | nil => simp [insertA, lookupA, Ne.symm h]
  | cons p rest ih =>
    by_cases h0 : p.1 = k
    · simp [insertA, lookupA, h0, Ne.symm h]
    · by_cases h1 : p.1 = k'
      · simp [insertA, lookupA, h0, h1, h]
      · simp [insertA, lookupA, h0, h1, ih]

theorem keys_insertA {κ α : Type} [DecidableEq κ] (m : List (κ × α)) (k : κ) (v : α) :
    ((insertA m k v).map Prod.fst) =
      if k ∈ m.map Prod.fst then m.map Prod.fst else m.map Prod.fst ++ [k] := by
  induction m with
  | nil => simp [insertA]
  | cons p rest ih =>
    by_cases h : p.1 = k
    · simp [insertA, h]
    · by_cases h2 : k ∈ rest.map Prod.fst <;>
        simp [insertA, h, ih, h2, Ne.symm h]

theorem keys_insertA_nodup {κ α : Type} [DecidableEq κ] (m : List (κ × α)) (k : κ) (v : α)
    (h : (m.map Prod.fst).Nodup) : ((insertA m k v).map Prod.fst).Nodup := by
  rw [keys_insertA]
  by_cases h2 : k ∈ m.map Prod.fst
  · simpa [h2]
  · simpa [h2, List.nodup_append] using h

theorem lookupA_eq_none {κ α : Type} [DecidableEq κ] (m : List (κ × α)) (k : κ)
    (h : k ∉ m.map Prod.fst) : lookupA m k = none := by
  induction m with
  | nil => rfl
  | cons p rest ih =>
    simp only [List.map_cons, List.mem_cons] at h
    push_neg at h
    simp [lookupA, Ne.symm h.1, ih h.2]

theorem lookupA_isSome_of_mem {κ α : Type} [DecidableEq κ] (m : List (κ × α)) (p : κ × α)
    (h : p ∈ m) : (lookupA m p.1).isSome := by
  induction m with
  | nil => simp at h
  | cons q rest ih =>
    rcases List.mem_cons.mp h with h1 | h1
    · simp [lookupA, h1]
    · by_cases h2 : q.1 = p.1
      · simp [lookupA, h2]
      · simp [lookupA, h2, ih h1]

theorem lookupA_mem {κ α : Type} [DecidableEq κ] (m : List (κ × α)) (k : κ) (v : α)
    (h : lookupA m k = some v) : (k, v) ∈ m := by
  induction m with
  | nil => simp [lookupA] at h
  | cons q rest ih =>
    by_cases h2 : q.1 = k
    · obtain ⟨qk, qv⟩ := q
      simp only at h2
      subst h2
      simp only [lookupA, if_pos] at h
      injection h with h
      subst h
      exact List.mem_cons_self _ _
    · simp only [lookupA, h2, if_neg, not_false_iff] at h
      exact List.mem_cons_of_mem _ (ih h)

/-! ### Decimal representation -/

theorem decDigitsAux_congr : ∀ f1 f2 n : Nat, n ≤ f1 → n ≤ f2 →
    decDigitsAux f1 n = decDigitsAux f2 n := by
  intro f1
  induction f1 with
  | zero =>
    intro f2 n h1 h2
    have hn : n = 0 := by omega
    subst hn
    cases f2 with
    | zero => rfl
    | succ f2 => simp [decDigitsAux]
  | succ f1 ih =>
    intro f2 n h1 h2
    cases f2 with
    | zero =>
      have hn : n = 0 := by omega
      subst hn
      simp [decDigitsAux]
    | succ f2 =>
      by_cases h : n < 10
      · simp [decDigitsAux, h]
      · have hd : n / 10 < n := Nat.div_lt_self (by omega) (by omega)
        simp only [decDigitsAux, h, if_false]
        rw [ih f2 (n / 10) (by omega) (by omega)]

theorem decDigits_lt (n : Nat) (h : n < 10) : decDigits n = [Nat.digitChar n] := by
  cases n with
  | zero => rfl
  | succ m => simp [decDigits, decDigitsAux, h]

theorem decDigits_ge (n : Nat) (h : ¬n < 10) :
    decDigits n = decDigits (n / 10) ++ [Nat.digitChar (n % 10)] := by
  cases n with
  | zero => omega
  | succ m =>
    have hd : (m + 1) / 10 < m + 1 := Nat.div_lt_self (by omega) (by omega)
    show decDigitsAux (m + 1) (m + 1) = _
    simp only [decDigitsAux, h, if_false]
    rw [decDigitsAux_congr m ((m + 1) / 10) ((m + 1) / 10) (by omega) (le_refl _)]
    rfl

theorem decDigits_ne_nil (n : Nat) : decDigits n ≠ [] := by
  by_cases h : n < 10
  · simp [decDigits_lt n h]
  · simp [decDigits_ge n h]

theorem digitChar_inj : ∀ a < 10, ∀ b < 10, Nat.digitChar a = Nat.digitChar b → a = b := by
  decide

theorem decDigits_inj (a b : Nat) (h : decDigits a = decDigits b) : a = b := by
  by_cases ha : a < 10 <;> by_cases hb : b < 10
  · rw [decDigits_lt a ha, decDigits_lt b hb] at h
    exact digitChar_inj a ha b hb (by simpa using h)
  · rw [decDigits_lt a ha, decDigits_ge b hb] at h
    have hlen := congrArg List.length h
    simp only [List.length_singleton, List.length_append] at hlen
    have h0 : (decDigits (b / 10)).length = 0 := by omega
    exact absurd (List.length_eq_zero.mp h0) (decDigits_ne_nil _)
  · rw [decDigits_ge a ha, decDigits_lt b hb] at h
    have hlen := congrArg List.length h
    simp only [List.length_singleton, List.length_append] at hlen
    have h0 : (decDigits (a / 10)).length = 0 := by omega
    exact absurd (List.length_eq_zero.mp h0) (decDigits_ne_nil _)
  · rw [decDigits_ge a ha, decDigits_ge b hb] at h
    have hinj := List.append_inj' h (by simp)
    have h1 : a / 10 = b / 10 := decDigits_inj (a / 10) (b / 10) hinj.1
    have h2 : a % 10 = b % 10 := by
      have := hinj.2
      simp only [List.cons.injEq] at this
      exact digitChar_inj _ (Nat.mod_lt _ (by omega)) _ (Nat.mod_lt _ (by omega)) this.1
    omega
termination_by a
decreasing_by exact Nat.div_lt_self (by omega) (by omega)

theorem natStr_inj (a b : Nat) (h : natStr a = natStr b) : a = b := by
  unfold natStr at h
  injection h with h
  exact decDigits_inj a b h

/-! ### Order facts on property values -/

theorem vltB_true_iff (a b : Value) : vltB a b = true ↔ vlt a b = Except.ok true := by
  unfold vltB
  cases h : vlt a b with
  | error e => simp
  | ok v => cases v <;> simp

theorem vlt_asymm : ∀ a b : Value, vlt a b = Except.ok true → vlt b a = Except.ok false
  | Value.n x, Value.n y, h => by
    simp only [vlt, Except.ok.injEq, decide_eq_true_eq] at h
    simp only [vlt, Except.ok.injEq, decide_eq_false_iff_not]
    omega
  | Value.s x, Value.s y, h => by
    simp only [vlt, Except.ok.injEq, decide_eq_true_eq] at h
    simp only [vlt, Except.ok.injEq, decide_eq_false_iff_not]
    exact lt_asymm h
  | Value.n x, Value.s y, h => by simp [vlt] at h
  | Value.s x, Value.n y, h => by simp [vlt] at h

theorem vlt_irrefl : ∀ a : Value, vlt a a = Except.ok false
  | Value.n x => by
    simp only [vlt, Except.ok.injEq, decide_eq_false_iff_not]
    omega
  | Value.s x => by
    simp only [vlt, Except.ok.injEq, decide_eq_false_iff_not]
    exact lt_irrefl x

/-! ### Step lemmas for the entity and dependency phases -/

theorem entityStep_not_ne (kb : KB) (vid : Option String) (a : Ann) (ints : Ints)
    (ids : IdState) (h : ¬a.atType = UriNE) :
    entityStep kb vid a ints ids = Except.ok ([], ints, ids) := by
  simp [entityStep, h]

theorem depStep_not_dep (a : Ann) (c2h : C2H) (h : ¬a.atType = UriDEP) :
    depStep a c2h = Except.ok c2h := by
  simp [depStep, h]

theorem annDocId_ok (vid : Option String) (a : Ann)
    (hdoc : ∀ v dv, vid = some v → lookupA a.properties "document" = some dv →
      ∃ s0, dv = Value.s s0) :
    ∃ doc, annDocId vid a = Except.ok doc := by
  cases vid with
  | none => exact ⟨_, rfl⟩
  | some v =>
    cases hl : lookupA a.properties "document" with
    | none => exact ⟨none, by simp [annDocId, hl]⟩
    | some dv =>
      obtain ⟨s0, rfl⟩ := hdoc v dv rfl hl
      exact ⟨some (Value.s (v ++ ":" ++ s0)), by simp [annDocId, hl, vconcat]⟩

theorem entityStep_unmatched (kb : KB) (vid : Option String) (a : Ann) (ints : Ints)
    (ids : IdState) (t : Value)
    (hty : a.atType = UriNE)
    (htext : lookupA a.properties "text" = some t)
    (hkb : kb t = [])
    (hdoc : ∀ v dv, vid = some v → lookupA a.properties "document" = some dv →
      ∃ s0, dv = Value.s s0) :
    entityStep kb vid a ints ids = Except.ok ([], ints, ids) := by
  obtain ⟨doc, hdok⟩ := annDocId_ok vid a hdoc
  simp [entityStep, hty, hdok, pget, htext, hkb]

theorem entityLoop_skip (kb : KB) (vid : Option String) (pre post : List Ann) (a : Ann)
    (t : Value)
    (hty : a.atType = UriNE)
    (htext : lookupA a.properties "text" = some t)
    (hkb : kb t = [])
    (hdoc : ∀ v dv, vid = some v → lookupA a.properties "document" = some dv →
      ∃ s0, dv = Value.s s0) :
    ∀ ints ids, entityLoop kb vid (pre ++ a :: post) ints ids =
      entityLoop kb vid (pre ++ post) ints ids := by
  induction pre with
  | nil =>
    intro ints ids
    show entityLoop kb vid (a :: post) ints ids = _
    rw [entityLoop, entityStep_unmatched kb vid a ints ids t hty htext hkb hdoc]
    cases h2 : entityLoop kb vid post ints ids with
    | error e => simp [h2]
    | ok t2 =>
      obtain ⟨o2, ints2, ids2⟩ := t2
      simp [h2]
  | cons p pre ih =>
    intro ints ids
    show entityLoop kb vid (p :: (pre ++ a :: post)) ints ids =
      entityLoop kb vid (p :: (pre ++ post)) ints ids
    rw [entityLoop, entityLoop]
    cases h1 : entityStep kb vid p ints ids with
    | error e => rfl
    | ok t1 => simp only [ih]

theorem depLoop_skip (pre post : List Ann) (a : Ann) (hty : ¬a.atType = UriDEP) :
    ∀ c2h, depLoop (pre ++ a :: post) c2h = depLoop (pre ++ post) c2h := by
  induction pre with
  | nil =>
    intro c2h
    show depLoop (a :: post) c2h = _
    rw [depLoop, depStep_not_dep a c2h hty]
    show depLoop post c2h = depLoop ([] ++ post) c2h
    rw [List.nil_append]
  | cons p pre ih =>
    intro c2h
    show depLoop (p :: (pre ++ a :: post)) c2h = depLoop (p :: (pre ++ post)) c2h
    rw [depLoop, depLoop]
    cases h1 : depStep p c2h with
    | error e => rfl
    | ok c2h1 => exact ih c2h1

/-- C3: an entity annotation whose knowledge-base search comes back empty
contributes nothing to the run: no entity-link record is emitted for it, it
is absent from the resolved-entity map (hence from relation discovery), and
the run's output is exactly as if the annotation were not there; its absence
raises no error. -/
theorem C3_unmatched_entity_excluded (kb : KB) (vid : Option String) (ids : IdState)
    (pre post : List Ann) (a : Ann) (t : Value)
    (hty : a.atType = UriNE)
    (htext : lookupA a.properties "text" = some t)
    (hkb : kb t = [])
    (hdoc : ∀ v dv, vid = some v → lookupA a.properties "document" = some dv →
      ∃ s0, dv = Value.s s0) :
    addToolOutput kb (pre ++ a :: post) vid ids = addToolOutput kb (pre ++ post) vid ids := by
  unfold addToolOutput
  rw [entityLoop_skip kb vid pre post a t hty htext hkb hdoc [] ids,
      depLoop_skip pre post a (by rw [hty]; decide) []]

/-- Witness for C3 at a concrete input. -/
theorem C3_unmatched_entity_excluded_witness :
    addToolOutput (fun _ => [])
      ([] ++ ({ atType := UriNE, properties := [("text", Value.s "Nobody")] } : Ann) ::
        [({ atType := UriDEP, properties :=
            [("child_i", Value.n 1), ("dep", Value.s "nsubj"),
             ("head_text", Value.s "ran"), ("head_lemma", Value.s "run"),
             ("head_i", Value.n 2)] } : Ann)]) none [] =
    addToolOutput (fun _ => [])
      ([] ++ [({ atType := UriDEP, properties :=
          [("child_i", Value.n 1), ("dep", Value.s "nsubj"),
           ("head_text", Value.s "ran"), ("head_lemma", Value.s "run"),
           ("head_i", Value.n 2)] } : Ann)]) none [] :=
  C3_unmatched_entity_excluded (fun _ => []) none [] [] _ _ (Value.s "Nobody")
    rfl rfl rfl (fun v dv h => absurd h (by simp))

/-! ### Optional candidate fields -/

theorem entityRecordProps_optional (aprops entry : Props) (t c r : Value)
    (hcat : lookupA aprops "category" = some c)
    (hroot : lookupA aprops "root_i" = some r) :
    ∃ ps, entityRecordProps aprops entry t = Except.ok ps ∧
      lookupA ps "text" = some t ∧
      lookupA ps "category" = some c ∧
      lookupA ps "root_i" = some r ∧
      lookupA ps "wikidata_id" = lookupA entry "id" ∧
      lookupA ps "url" = lookupA entry "url" ∧
      lookupA ps "label" = lookupA entry "label" ∧
      lookupA ps "description" = lookupA entry "description" := by
  cases hid : lookupA entry "id" <;> cases hurl : lookupA entry "url" <;>
    cases hlab : lookupA entry "label" <;> cases hdesc : lookupA entry "description" <;>
      simp [entityRecordProps, pget, hcat, hroot, hid, hurl, hlab, hdesc,
        interestedKeys, propOrder, insertA, lookupA]

theorem buildRelProps_ok_iff (e1 e2 : Props) (ch1 ch2 : DepEntry) :
    (∃ ps, buildRelProps e1 e2 ch1 ch2 = Except.ok ps) ↔
      ((lookupA e1 "text").isSome ∧ (lookupA e1 "label").isSome ∧
       (lookupA e1 "root_i").isSome ∧ (lookupA e1 "wikidata_id").isSome ∧
       (lookupA e2 "text").isSome ∧ (lookupA e2 "label").isSome ∧
       (lookupA e2 "root_i").isSome ∧ (lookupA e2 "wikidata_id").isSome) := by
  cases h1 : lookupA e1 "text" with
  | none => simp [buildRelProps, pget, h1]
  | some v1 =>
    cases h2 : lookupA e1 "label" with
    | none => simp [buildRelProps, pget, h1, h2]
    | some v2 =>
      cases h3 : lookupA e1 "root_i" with
      | none => simp [buildRelProps, pget, h1, h2, h3]
      | some v3 =>
        cases h4 : lookupA e1 "wikidata_id" with
        | none => simp [buildRelProps, pget, h1, h2, h3, h4]
        | some v4 =>
          cases h5 : lookupA e2 "text" with
          | none => simp [buildRelProps, pget, h1, h2, h3, h4, h5]
          | some v5 =>
            cases h6 : lookupA e2 "label" with
            | none => simp [buildRelProps, pget, h1, h2, h3, h4, h5, h6]
            | some v6 =>
              cases h7 : lookupA e2 "root_i" with
              | none => simp [buildRelProps, pget, h1, h2, h3, h4, h5, h6, h7]
              | some v7 =>
                cases h8 : lookupA e2 "wikidata_id" with
                | none => simp [buildRelProps, pget, h1, h2, h3, h4, h5, h6, h7, h8]
                | some v8 => simp [buildRelProps, pget, h1, h2, h3, h4, h5, h6, h7, h8]

/-- C5 corrected: absent optional candidate fields are tolerated and simply
omitted during entity-link emission (present ones are copied, the candidate
id as `wikidata_id`); relation-record construction, however, succeeds for a
pair of stored entities exactly when text, label, root position and
wikidata id are all present on both, so a missing candidate id or label
makes relation emission fail while a missing description or url never
does. -/
theorem C5_optional_fields (aprops entry : Props) (t c r : Value)
    (e1 e2 : Props) (ch1 ch2 : DepEntry)
    (hcat : lookupA aprops "category" = some c)
    (hroot : lookupA aprops "root_i" = some r) :
    (∃ ps, entityRecordProps aprops entry t = Except.ok ps ∧
      lookupA ps "text" = some t ∧
      lookupA ps "category" = some c ∧
      lookupA ps "root_i" = some r ∧
      lookupA ps "wikidata_id" = lookupA entry "id" ∧
      lookupA ps "url" = lookupA entry "url" ∧
      lookupA ps "label" = lookupA entry "label" ∧
      lookupA ps "description" = lookupA entry "description") ∧
    ((∃ ps, buildRelProps e1 e2 ch1 ch2 = Except.ok ps) ↔
      ((lookupA e1 "text").isSome ∧ (lookupA e1 "label").isSome ∧
       (lookupA e1 "root_i").isSome ∧ (lookupA e1 "wikidata_id").isSome ∧
       (lookupA e2 "text").isSome ∧ (lookupA e2 "label").isSome ∧
       (lookupA e2 "root_i").isSome ∧ (lookupA e2 "wikidata_id").isSome)) :=
  ⟨entityRecordProps_optional aprops entry t c r hcat hroot,
   buildRelProps_ok_iff e1 e2 ch1 ch2⟩

/-- Counterexample to C5 as stated: with a matched candidate that lacks the
optional `label` field, two resolved entities sharing a head make the run
fail with a key-lookup error instead of completing normally. -/
theorem C5_optional_fields_cex :
    addToolOutput (fun _ => [[("id", Value.s "Q1")]])
      [{ atType := UriNE, properties :=
           [("text", Value.s "A"), ("category", Value.s "PER"), ("root_i", Value.n 1),
            ("start", Value.n 0), ("end", Value.n 1)] },
       { atType := UriNE, properties :=
           [("text", Value.s "B"), ("category", Value.s "PER"), ("root_i", Value.n 2),
            ("start", Value.n 0), ("end", Value.n 1)] },
       { atType := UriDEP, properties :=
           [("child_i", Value.n 1), ("dep", Value.s "nsubj"), ("head_text", Value.s "met"),
            ("head_lemma", Value.s "meet"), ("head_i", Value.n 5)] },
       { atType := UriDEP, properties :=
           [("child_i", Value.n 2), ("dep", Value.s "dobj"), ("head_text", Value.s "met"),
            ("head_lemma", Value.s "meet"), ("head_i", Value.n 5)] }]
      (some "v1") [] = Except.error "KeyError: label" := by
  rfl

/-- Witness for C5 at a concrete input. -/
theorem C5_optional_fields_witness :
    (∃ ps, entityRecordProps [("category", Value.s "PER"), ("root_i", Value.n 1)]
        [("id", Value.s "Q1")] (Value.s "A") = Except.ok ps ∧
      lookupA ps "text" = some (Value.s "A") ∧
      lookupA ps "category" = some (Value.s "PER") ∧
      lookupA ps "root_i" = some (Value.n 1) ∧
      lookupA ps "wikidata_id" = lookupA [("id", Value.s "Q1")] "id" ∧
      lookupA ps "url" = lookupA [("id", Value.s "Q1")] "url" ∧
      lookupA ps "label" = lookupA [("id", Value.s "Q1")] "label" ∧
      lookupA ps "description" = lookupA [("id", Value.s "Q1")] "description") ∧
    ((∃ ps, buildRelProps [("text", Value.s "A")] [("text", Value.s "B")]
        ⟨Value.s "d", Value.s "h", Value.s "l", Value.n 5⟩
        ⟨Value.s "d", Value.s "h", Value.s "l", Value.n 5⟩ = Except.ok ps) ↔
      ((lookupA [("text", Value.s "A")] "text").isSome ∧
       (lookupA [("text", Value.s "A")] "label").isSome ∧
       (lookupA [("text", Value.s "A")] "root_i").isSome ∧
       (lookupA [("text", Value.s "A")] "wikidata_id").isSome ∧
       (lookupA [("text", Value.s "B")] "text").isSome ∧
       (lookupA [("text", Value.s "B")] "label").isSome ∧
       (lookupA [("text", Value.s "B")] "root_i").isSome ∧
       (lookupA [("text", Value.s "B")] "wikidata_id").isSome)) :=
  C5_optional_fields [("category", Value.s "PER"), ("root_i", Value.n 1)]
    [("id", Value.s "Q1")] (Value.s "A") (Value.s "PER") (Value.n 1)
    [("text", Value.s "A")] [("text", Value.s "B")]
    ⟨Value.s "d", Value.s "h", Value.s "l", Value.n 5⟩
    ⟨Value.s "d", Value.s "h", Value.s "l", Value.n 5⟩ rfl rfl

/-! ### Scenario 1 -/

/-- Counterexample to C8 as stated: on the scenario's exact input the
entity annotation carries no `category` property, so the run fails with a
key-lookup error and produces no output view at all. -/
theorem C8_scenario1_cex :
    annotate kbScenario1 [viewScenario1] = Except.error "KeyError: category" := by
  rfl

/-- C8 amended: with a `category` property on the entity annotation, the
output is one new view whose document id is the source view id joined with
":d1", holding exactly one entity-link record (identifier "nel1", no
relation records); after the span fields its properties appear in the
fixed order root_i, text, label, category, description, wikidata_id,
url. -/
theorem C8_scenario1 :
    annotate kbScenario1 [viewScenario1Cat] =
      Except.ok
        [{ docid := some "v1:d1",
           anns := [{ atType := UriNEL, id := "nel1",
                      properties :=
                        [("start", Value.n 0), ("end", Value.n 5),
                         ("root_i", Value.n 3), ("text", Value.s "Paris"),
                         ("label", Value.s "Paris"), ("category", Value.s "GPE"),
                         ("description", Value.s "capital of France"),
                         ("wikidata_id", Value.s "Q90"),
                         ("url", Value.s "https://www.wikidata.org/wiki/Q90")] }] }] := by
  rfl

/-! ### Required properties of matched entity annotations -/

theorem entityRecordProps_ok_requires (aprops entry : Props) (t : Value) (ps : Props)
    (h : entityRecordProps aprops entry t = Except.ok ps) :
    (lookupA aprops "category").isSome ∧ (lookupA aprops "root_i").isSome := by
  unfold entityRecordProps at h
  simp only [pget] at h
  cases hc : lookupA aprops "category" with
  | none => rw [hc] at h; simp at h
  | some c =>
    rw [hc] at h
    cases hr : lookupA aprops "root_i" with
    | none => rw [hr] at h; simp at h
    | some r => simp

theorem entityStep_required (kb : KB) (vid : Option String) (a : Ann) (ints : Ints)
    (ids : IdState) (r : List OutAnn × Ints × IdState)
    (hok : entityStep kb vid a ints ids = Except.ok r)
    (hty : a.atType = UriNE) :
    (lookupA a.properties "text").isSome ∧
    (∀ t, lookupA a.properties "text" = some t → kb t ≠ [] →
      (lookupA a.properties "category").isSome ∧
      (lookupA a.properties "root_i").isSome ∧
      (lookupA a.properties "start").isSome ∧
      (lookupA a.properties "end").isSome) := by
  unfold entityStep at hok
  rw [if_pos hty] at hok
  cases hd : annDocId vid a with
  | error e => rw [hd] at hok; simp at hok
  | ok doc =>
    rw [hd] at hok
    simp only [pget] at hok
    cases ht : lookupA a.properties "text" with
    | none => rw [ht] at hok; simp at hok
    | some t =>
      rw [ht] at hok
      simp only [] at hok
      refine ⟨by simp, ?_⟩
      intro t' ht' hkb
      injection ht' with ht'
      subst ht'
      cases hke : kb t with
      | nil => exact absurd hke hkb
      | cons entry restE =>
        rw [hke] at hok
        simp only [List.head?] at hok
        cases hrp : entityRecordProps a.properties entry t with
        | error e => rw [hrp] at hok; simp at hok
        | ok ps =>
          rw [hrp] at hok
          have hcr := entityRecordProps_ok_requires a.properties entry t ps hrp
          cases hs : lookupA a.properties "start" with
          | none => rw [hs] at hok; simp at hok
          | some sv =>
            rw [hs] at hok
            cases he : lookupA a.properties "end" with
            | none => rw [he] at hok; simp at hok
            | some ev => exact ⟨hcr.1, hcr.2, by simp, by simp⟩

theorem entityLoop_required (kb : KB) (vid : Option String) (anns : List Ann) :
    ∀ ints ids r, entityLoop kb vid anns ints ids = Except.ok r →
    ∀ a ∈ anns, a.atType = UriNE →
      (lookupA a.properties "text").isSome ∧
      (∀ t, lookupA a.properties "text" = some t → kb t ≠ [] →
        (lookupA a.properties "category").isSome ∧
        (lookupA a.properties "root_i").isSome ∧
        (lookupA a.properties "start").isSome ∧
        (lookupA a.properties "end").isSome) := by
  induction anns with
  | nil => intro ints ids r _ a ha; simp at ha
  | cons b rest ih =>
    intro ints ids r hok a ha hty
    rw [entityLoop] at hok
    cases h1 : entityStep kb vid b ints ids with
    | error e => rw [h1] at hok; simp at hok
    | ok t1 =>
      obtain ⟨o1, ints1, ids1⟩ := t1
      rw [h1] at hok
      simp only [] at hok
      cases h2 : entityLoop kb vid rest ints1 ids1 with
      | error e => rw [h2] at hok; simp at hok
      | ok t2 =>
        rcases List.mem_cons.mp ha with rfl | ha2
        · exact entityStep_required kb vid a ints ids _ h1 hty
        · exact ih ints1 ids1 t2 h2 a ha2 hty

/-- C9: a run that completes requires every entity annotation to carry a
`text` property, and every entity annotation whose knowledge-base search
returns a match to carry `category`, `root_i`, `start` and `end` as well:
these are read without a presence check, so when one is absent the run
fails with an error before producing output. -/
theorem C9_matched_entity_required_props (kb : KB) (anns : List Ann)
    (vid : Option String) (ids : IdState) (res : List OutAnn × IdState)
    (hok : addToolOutput kb anns vid ids = Except.ok res) :
    ∀ a ∈ anns, a.atType = UriNE →
      (lookupA a.properties "text").isSome ∧
      (∀ t, lookupA a.properties "text" = some t → kb t ≠ [] →
        (lookupA a.properties "category").isSome ∧
        (lookupA a.properties "root_i").isSome ∧
        (lookupA a.properties "start").isSome ∧
        (lookupA a.properties "end").isSome) := by
  unfold addToolOutput at hok
  cases h1 : entityLoop kb vid anns [] ids with
  | error e => rw [h1] at hok; simp at hok
  | ok t1 => exact entityLoop_required kb vid anns [] ids t1 h1

/-- Witness for C9 at a concrete input. -/
theorem C9_matched_entity_required_props_witness :
    (lookupA [("text", Value.s "A"), ("category", Value.s "PER"), ("root_i", Value.n 1),
       ("start", Value.n 0), ("end", Value.n 1)] "text").isSome ∧
    (lookupA [("text", Value.s "A"), ("category", Value.s "PER"), ("root_i", Value.n 1),
       ("start", Value.n 0), ("end", Value.n 1)] "category").isSome ∧
    (lookupA [("text", Value.s "A"), ("category", Value.s "PER"), ("root_i", Value.n 1),
       ("start", Value.n 0), ("end", Value.n 1)] "root_i").isSome ∧
    (lookupA [("text", Value.s "A"), ("category", Value.s "PER"), ("root_i", Value.n 1),
       ("start", Value.n 0), ("end", Value.n 1)] "start").isSome ∧
    (lookupA [("text", Value.s "A"), ("category", Value.s "PER"), ("root_i", Value.n 1),
       ("start", Value.n 0), ("end", Value.n 1)] "end").isSome := by
  have h := C9_matched_entity_required_props
    (fun _ => [[("id", Value.s "Q1"), ("label", Value.s "L")]])
    [{ atType := UriNE, properties :=
        [("text", Value.s "A"), ("category", Value.s "PER"), ("root_i", Value.n 1),
         ("start", Value.n 0), ("end", Value.n 1)] }]
    none [] _ rfl
    { atType := UriNE, properties :=
        [("text", Value.s "A"), ("category", Value.s "PER"), ("root_i", Value.n 1),
         ("start", Value.n 0), ("end", Value.n 1)] }
    (List.mem_cons_self _ _) rfl
  have h4 := h.2 (Value.s "A") rfl (by simp)
  exact ⟨h.1, h4.1, h4.2.1, h4.2.2.1, h4.2.2.2⟩

/-! ### Relation-search helper facts -/

theorem relCondB_of (c2hd : List (Value × DepEntry)) (i1 i2 : Value) (ch1 ch2 : DepEntry)
    (hl1 : lookupA c2hd i1 = some ch1) (hl2 : lookupA c2hd i2 = some ch2)
    (hh : ch1.head_i = ch2.head_i) : relCondB c2hd i1 i2 = true := by
  simp [relCondB, hl1, hl2, hh]

theorem buildRelProps_spec (e1 e2 : Props) (ch1 ch2 : DepEntry) (ps : Props)
    (h : buildRelProps e1 e2 ch1 ch2 = Except.ok ps) :
    ∃ t1 l1 r1 w1 t2 l2 r2 w2,
      lookupA e1 "text" = some t1 ∧ lookupA e1 "label" = some l1 ∧
      lookupA e1 "root_i" = some r1 ∧ lookupA e1 "wikidata_id" = some w1 ∧
      lookupA e2 "text" = some t2 ∧ lookupA e2 "label" = some l2 ∧
      lookupA e2 "root_i" = some r2 ∧ lookupA e2 "wikidata_id" = some w2 ∧
      ps = [("e1_text", t1), ("e1_label", l1), ("e1_root_i", r1),
            ("e1_wikidata_id", w1), ("e1_dep", ch1.dep),
            ("e2_text", t2), ("e2_label", l2), ("e2_root_i", r2),
            ("e2_wikidata_id", w2), ("e2_dep", ch2.dep),
            ("rel_text", ch1.head_text), ("rel_lemma", ch1.head_lemma),
            ("rel_i", ch1.head_i)] := by
  unfold buildRelProps at h
  simp only [pget] at h
  cases h1 : lookupA e1 "text" <;> rw [h1] at h <;> try simp at h
  cases h2 : lookupA e1 "label" <;> rw [h2] at h <;> try simp at h
  cases h3 : lookupA e1 "root_i" <;> rw [h3] at h <;> try simp at h
  cases h4 : lookupA e1 "wikidata_id" <;> rw [h4] at h <;> try simp at h
  cases h5 : lookupA e2 "text" <;> rw [h5] at h <;> try simp at h
  cases h6 : lookupA e2 "label" <;> rw [h6] at h <;> try simp at h
  cases h7 : lookupA e2 "root_i" <;> rw [h7] at h <;> try simp at h
  cases h8 : lookupA e2 "wikidata_id" <;> rw [h8] at h <;> try simp at h
  exact ⟨_, _, _, _, _, _, _, _, rfl, rfl, rfl, rfl, rfl, rfl, rfl, rfl, h.symm⟩

theorem lookupA_addAnn_rel (attype ident : String) (doc : Option Value) (ps : Props)
    (k : String) (hk : ¬k = "document") :
    lookupA (addAnn attype ident doc none none ps).properties k = lookupA ps k := by
  cases doc <;> simp [addAnn, lookupA, Ne.symm hk]

theorem relStep_ok_cases (vid : Option String) (d : Value)
    (c2hd : List (Value × DepEntry)) (p1 p2 : Value × Props) (ids : IdState)
    (o : Option OutAnn) (ids' : IdState)
    (hok : relStep vid d c2hd p1 p2 ids = Except.ok (o, ids')) :
    (o = none ∧ ids' = ids ∧ emitCondB c2hd p1.1 p2.1 = false) ∨
    (∃ ch1 ch2 ps doc,
      vlt p1.1 p2.1 = Except.ok true ∧
      lookupA c2hd p1.1 = some ch1 ∧ lookupA c2hd p2.1 = some ch2 ∧
      ch1.head_i = ch2.head_i ∧
      buildRelProps p1.2 p2.2 ch1 ch2 = Except.ok ps ∧
      relDoc vid d = Except.ok doc ∧
      o = some (addAnn UriNELR (idNew ids "nelr").1 doc none none ps) ∧
      ids' = (idNew ids "nelr").2) := by
  unfold relStep at hok
  cases hv : vlt p1.1 p2.1 with
  | error e => rw [hv] at hok; simp at hok
  | ok b =>
    rw [hv] at hok
    simp only [] at hok
    have hvb : vltB p1.1 p2.1 = b := by
      unfold vltB
      rw [hv]
      cases b <;> rfl
    cases hl1 : lookupA c2hd p1.1 with
    | none =>
      rw [hl1] at hok
      simp only [] at hok
      injection hok with hok
      injection hok with ho hi
      exact Or.inl ⟨ho.symm, hi.symm, by simp [emitCondB, relCondB, hl1]⟩
    | some ch1 =>
      rw [hl1] at hok
      cases hl2 : lookupA c2hd p2.1 with
      | none =>
        rw [hl2] at hok
        simp only [] at hok
        injection hok with hok
        injection hok with ho hi
        exact Or.inl ⟨ho.symm, hi.symm, by simp [emitCondB, relCondB, hl1, hl2]⟩
      | some ch2 =>
        rw [hl2] at hok
        simp only [] at hok
        by_cases hb : (b && decide (ch1.head_i = ch2.head_i)) = true
        · rw [if_pos hb] at hok
          simp only [Bool.and_eq_true, decide_eq_true_eq] at hb
          subst hvb
          cases hbp : buildRelProps p1.2 p2.2 ch1 ch2 with
          | error e => rw [hbp] at hok; simp at hok
          | ok ps =>
            rw [hbp] at hok
            cases hrd : relDoc vid d with
            | error e => rw [hrd] at hok; simp at hok
            | ok doc =>
              rw [hrd] at hok
              injection hok with hok
              injection hok with ho hi
              refine Or.inr ⟨ch1, ch2, ps, doc, ?_, rfl, rfl, hb.2, hbp, rfl, ho.symm, hi.symm⟩
              rw [hb.1]
        · rw [if_neg hb] at hok
          injection hok with hok
          injection hok with ho hi
          refine Or.inl ⟨ho.symm, hi.symm, ?_⟩
          subst hvb
          simp only [Bool.and_eq_true, decide_eq_true_eq, not_and] at hb
          cases hvb2 : vltB p1.1 p2.1 with
          | false => simp [emitCondB, hvb2]
          | true =>
            have := hb hvb2
            simp [emitCondB, hvb2, relCondB, hl1, hl2, this]

theorem relInner_sound (vid : Option String) (d : Value) (c2hd : List (Value × DepEntry))
    (p1 : Value × Props) :
    ∀ l ids out ids', relInner vid d c2hd p1 l ids = Except.ok (out, ids') →
    ∀ r ∈ out, ∃ p2 ch1 ch2 ps doc ident,
      p2 ∈ l ∧ vlt p1.1 p2.1 = Except.ok true ∧
      lookupA c2hd p1.1 = some ch1 ∧ lookupA c2hd p2.1 = some ch2 ∧
      ch1.head_i = ch2.head_i ∧
      buildRelProps p1.2 p2.2 ch1 ch2 = Except.ok ps ∧
      relDoc vid d = Except.ok doc ∧
      r = addAnn UriNELR ident doc none none ps := by
  intro l
  induction l with
  | nil =>
    intro ids out ids' hok r hr
    rw [relInner] at hok
    injection hok with hok
    injection hok with ho hi
    rw [← ho] at hr
    simp at hr
  | cons p2 rest ih =>
    intro ids out ids' hok r hr
    rw [relInner] at hok
    cases h1 : relStep vid d c2hd p1 p2 ids with
    | error e => rw [h1] at hok; simp at hok
    | ok t1 =>
      obtain ⟨o, ids1⟩ := t1
      rw [h1] at hok
      simp only [] at hok
      cases h2 : relInner vid d c2hd p1 rest ids1 with
      | error e => rw [h2] at hok; simp at hok
      | ok t2 =>
        obtain ⟨out2, ids2⟩ := t2
        rw [h2] at hok
        simp only [] at hok
        injection hok with hok
        injection hok with ho hi
        rw [← ho] at hr
        rcases List.mem_append.mp hr with hr1 | hr2
        · rcases relStep_ok_cases vid d c2hd p1 p2 ids o ids1 h1 with
            ⟨hno, _, _⟩ | ⟨ch1, ch2, ps, doc, hv, hl1, hl2, hh, hbp, hrd, hso, hids⟩
          · rw [hno] at hr1; simp at hr1
          · rw [hso] at hr1
            simp only [Option.toList_some, List.mem_singleton] at hr1
            subst hr1
            exact ⟨p2, ch1, ch2, ps, doc, (idNew ids "nelr").1,
              List.mem_cons_self _ _, hv, hl1, hl2, hh, hbp, hrd, rfl⟩
        · obtain ⟨p2', ch1, ch2, ps, doc, ident, hmem, rest'⟩ :=
            ih ids1 out2 ids2 h2 r hr2
          exact ⟨p2', ch1, ch2, ps, doc, ident, List.mem_cons_of_mem _ hmem, rest'⟩

theorem relOuter_sound (vid : Option String) (d : Value) (c2hd : List (Value × DepEntry))
    (inner : List (Value × Props)) :
    ∀ l ids out ids', relOuter vid d c2hd inner l ids = Except.ok (out, ids') →
    ∀ r ∈ out, ∃ p1 p2 ch1 ch2 ps doc ident,
      p1 ∈ l ∧ p2 ∈ inner ∧ vlt p1.1 p2.1 = Except.ok true ∧
      lookupA c2hd p1.1 = some ch1 ∧ lookupA c2hd p2.1 = some ch2 ∧
      ch1.head_i = ch2.head_i ∧
      buildRelProps p1.2 p2.2 ch1 ch2 = Except.ok ps ∧
      relDoc vid d = Except.ok doc ∧
      r = addAnn UriNELR ident doc none none ps := by
  intro l
  induction l with
  | nil =>
    intro ids out ids' hok r hr
    rw [relOuter] at hok
    injection hok with hok
    injection hok with ho hi
    rw [← ho] at hr
    simp at hr
  | cons p1 rest ih =>
    intro ids out ids' hok r hr
    rw [relOuter] at hok
    cases h1 : relInner vid d c2hd p1 inner ids with
    | error e => rw [h1] at hok; simp at hok
    | ok t1 =>
      obtain ⟨out1, ids1⟩ := t1
      rw [h1] at hok
      simp only [] at hok
      cases h2 : relOuter vid d c2hd inner rest ids1 with
      | error e => rw [h2] at hok; simp at hok
      | ok t2 =>
        obtain ⟨out2, ids2⟩ := t2
        rw [h2] at hok
        simp only [] at hok
        injection hok with hok
        injection hok with ho hi
        rw [← ho] at hr
        rcases List.mem_append.mp hr with hr1 | hr2
        · obtain ⟨p2, ch1, ch2, ps, doc, ident, hmem, rest'⟩ :=
            relInner_sound vid d c2hd p1 inner ids out1 ids1 h1 r hr1
          exact ⟨p1, p2, ch1, ch2, ps, doc, ident, List.mem_cons_self _ _, hmem, rest'⟩
        · obtain ⟨p1', p2, ch1, ch2, ps, doc, ident, hm1, rest'⟩ :=
            ih ids1 out2 ids2 h2 r hr2
          exact ⟨p1', p2, ch1, ch2, ps, doc, ident, List.mem_cons_of_mem _ hm1, rest'⟩

theorem relScopes_sound (vid : Option String) (c2h : C2H) :
    ∀ ints ids out ids', relScopes vid c2h ints ids = Except.ok (out, ids') →
    ∀ r ∈ out, ∃ d inner p1 p2 ch1 ch2 ps doc ident,
      (d, inner) ∈ ints ∧ p1 ∈ inner ∧ p2 ∈ inner ∧
      vlt p1.1 p2.1 = Except.ok true ∧
      lookupA (findD c2h d []) p1.1 = some ch1 ∧
      lookupA (findD c2h d []) p2.1 = some ch2 ∧
      ch1.head_i = ch2.head_i ∧
      buildRelProps p1.2 p2.2 ch1 ch2 = Except.ok ps ∧
      relDoc vid d = Except.ok doc ∧
      r = addAnn UriNELR ident doc none none ps := by
  intro ints
  induction ints with
  | nil =>
    intro ids out ids' hok r hr
    rw [relScopes] at hok
    injection hok with hok
    injection hok with ho hi
    rw [← ho] at hr
    simp at hr
  | cons sc rest ih =>
    obtain ⟨d0, inner0⟩ := sc
    intro ids out ids' hok r hr
    rw [relScopes] at hok
    cases h1 : relOuter vid d0 (findD c2h d0 []) inner0 inner0 ids with
    | error e => rw [h1] at hok; simp at hok
    | ok t1 =>
      obtain ⟨out1, ids1⟩ := t1
      rw [h1] at hok
      simp only [] at hok
      cases h2 : relScopes vid c2h rest ids1 with
      | error e => rw [h2] at hok; simp at hok
      | ok t2 =>
        obtain ⟨out2, ids2⟩ := t2
        rw [h2] at hok
        simp only [] at hok
        injection hok with hok
        injection hok with ho hi
        rw [← ho] at hr
        rcases List.mem_append.mp hr with hr1 | hr2
        · obtain ⟨p1, p2, ch1, ch2, ps, doc, ident, hm1, hm2, rest'⟩ :=
            relOuter_sound vid d0 (findD c2h d0 []) inner0 inner0 ids out1 ids1 h1 r hr1
          exact ⟨d0, inner0, p1, p2, ch1, ch2, ps, doc, ident,
            List.mem_cons_self _ _, hm1, hm2, rest'⟩
        · obtain ⟨d1, inner1, p1, p2, ch1, ch2, ps, doc, ident, hmd, rest'⟩ :=
            ih ids1 out2 ids2 h2 r hr2
          exact ⟨d1, inner1, p1, p2, ch1, ch2, ps, doc, ident,
            List.mem_cons_of_mem _ hmd, rest'⟩

theorem relCount_append (a b : List OutAnn) (i1 i2 : Value) :
    relCount (a ++ b) i1 i2 = relCount a i1 i2 + relCount b i1 i2 := by
  simp [relCount, List.filter_append]

theorem relCount_zero_of (out : List OutAnn) (j i1 i2 : Value)
    (he1 : ∀ r ∈ out, lookupA r.properties "e1_root_i" = some j) (hne : ¬j = i1) :
    relCount out i1 i2 = 0 := by
  have : out.filter (isRelFor i1 i2) = [] := by
    rw [List.filter_eq_nil_iff]
    intro r hr
    simp [isRelFor, he1 r hr, hne]
  simp [relCount, this]

theorem relInner_e1 (vid : Option String) (d : Value) (c2hd : List (Value × DepEntry))
    (p1 : Value × Props) (l : List (Value × Props)) (ids : IdState)
    (out : List OutAnn) (ids' : IdState)
    (hok : relInner vid d c2hd p1 l ids = Except.ok (out, ids'))
    (hr1 : lookupA p1.2 "root_i" = some p1.1) :
    ∀ r ∈ out, lookupA r.properties "e1_root_i" = some p1.1 := by
  intro r hr
  obtain ⟨p2, ch1, ch2, ps, doc, ident, _, _, _, _, _, hbp, _, hrr⟩ :=
    relInner_sound vid d c2hd p1 l ids out ids' hok r hr
  obtain ⟨t1, l1, r1, w1, t2, l2, r2, w2, _, _, hroot1, _, _, _, _, _, hps⟩ :=
    buildRelProps_spec p1.2 p2.2 ch1 ch2 ps hbp
  rw [hroot1] at hr1
  injection hr1 with hr1
  subst hr1
  rw [hrr, lookupA_addAnn_rel _ _ _ _ _ (by decide), hps]
  simp [lookupA]

theorem relInner_count (vid : Option String) (d : Value) (c2hd : List (Value × DepEntry))
    (p1 : Value × Props) (hr1 : lookupA p1.2 "root_i" = some p1.1) :
    ∀ l ids out ids', relInner vid d c2hd p1 l ids = Except.ok (out, ids') →
    (∀ p ∈ l, lookupA p.2 "root_i" = some p.1) →
    ∀ i2, relCount out p1.1 i2 =
      if emitCondB c2hd p1.1 i2 then l.countP (fun p => p.1 == i2) else 0 := by
  intro l
  induction l with
  | nil =>
    intro ids out ids' hok hper i2
    rw [relInner] at hok
    injection hok with hok
    injection hok with ho hi
    rw [← ho]
    simp [relCount]
  | cons p2 rest ih =>
    intro ids out ids' hok hper i2
    rw [relInner] at hok
    cases h1 : relStep vid d c2hd p1 p2 ids with
    | error e => rw [h1] at hok; simp at hok
    | ok t1 =>
      obtain ⟨o, ids1⟩ := t1
      rw [h1] at hok
      simp only [] at hok
      cases h2 : relInner vid d c2hd p1 rest ids1 with
      | error e => rw [h2] at hok; simp at hok
      | ok t2 =>
        obtain ⟨out2, ids2⟩ := t2
        rw [h2] at hok
        simp only [] at hok
        injection hok with hok
        injection hok with ho hi
        rw [← ho]
        have hc2 := ih ids1 out2 ids2 h2 (fun p hp => hper p (List.mem_cons_of_mem _ hp)) i2
        rcases relStep_ok_cases vid d c2hd p1 p2 ids o ids1 h1 with
          ⟨hno, _, hcondF⟩ | ⟨ch1, ch2, ps, doc, hv, hl1, hl2, hh, hbp, hrd, hso, hids⟩
        · subst hno
          simp only [Option.toList_none, List.nil_append]
          rw [hc2]
          by_cases hp : p2.1 = i2
          · rw [← hp, hcondF]
            simp [hcondF]
          · by_cases hco : emitCondB c2hd p1.1 i2 = true <;>
              simp [hco, List.countP_cons, hp]
        · subst hso
          simp only [Option.toList_some, List.singleton_append]
          have hemit : emitCondB c2hd p1.1 p2.1 = true := by
            unfold emitCondB
            rw [(vltB_true_iff p1.1 p2.1).mpr hv, relCondB_of c2hd p1.1 p2.1 ch1 ch2 hl1 hl2 hh]
            rfl
          obtain ⟨t1v, l1v, r1v, w1v, t2v, l2v, r2v, w2v,
            _, _, hroot1, _, _, _, hroot2, _, hps⟩ :=
            buildRelProps_spec p1.2 p2.2 ch1 ch2 ps hbp
          rw [hroot1] at hr1
          injection hr1 with he
          have hper2 := hper p2 (List.mem_cons_self _ _)
          rw [hroot2] at hper2
          injection hper2 with he2
          have hre1 : lookupA (addAnn UriNELR (idNew ids "nelr").1 doc none none ps).properties
              "e1_root_i" = some p1.1 := by
            rw [lookupA_addAnn_rel _ _ _ _ _ (by decide), hps]
            simp [lookupA, he]
          have hre2 : lookupA (addAnn UriNELR (idNew ids "nelr").1 doc none none ps).properties
              "e2_root_i" = some p2.1 := by
            rw [lookupA_addAnn_rel _ _ _ _ _ (by decide), hps]
            simp [lookupA, he2]
          by_cases hp : p2.1 = i2
          · subst hp
            have hfor : isRelFor p1.1 p2.1
                (addAnn UriNELR (idNew ids "nelr").1 doc none none ps) = true := by
              simp [isRelFor, hre1, hre2]
            have hstep : relCount
                (addAnn UriNELR (idNew ids "nelr").1 doc none none ps :: out2) p1.1 p2.1 =
                relCount out2 p1.1 p2.1 + 1 := by
              simp [relCount, List.filter_cons, hfor]
            rw [hstep, hc2, if_pos hemit, if_pos hemit]
            simp [List.countP_cons]
          · have hfor : isRelFor p1.1 i2
                (addAnn UriNELR (idNew ids "nelr").1 doc none none ps) = false := by
              simp [isRelFor, hre1, hre2, hp]
            have hstep : relCount
                (addAnn UriNELR (idNew ids "nelr").1 doc none none ps :: out2) p1.1 i2 =
                relCount out2 p1.1 i2 := by
              simp [relCount, List.filter_cons, hfor]
            rw [hstep, hc2]
            by_cases hco : emitCondB c2hd p1.1 i2 = true <;>
              simp [hco, List.countP_cons, hp]

theorem relOuter_count (vid : Option String) (d : Value) (c2hd : List (Value × DepEntry))
    (inner : List (Value × Props))
    (hin : ∀ p ∈ inner, lookupA p.2 "root_i" = some p.1) :
    ∀ l ids out ids', relOuter vid d c2hd inner l ids = Except.ok (out, ids') →
    (∀ p ∈ l, lookupA p.2 "root_i" = some p.1) →
    ∀ i1 i2, relCount out i1 i2 =
      (l.countP (fun p => p.1 == i1)) *
        (if emitCondB c2hd i1 i2 then inner.countP (fun p => p.1 == i2) else 0) := by
  intro l
  induction l with
  | nil =>
    intro ids out ids' hok hper i1 i2
    rw [relOuter] at hok
    injection hok with hok
    injection hok with ho hi
    rw [← ho]
    simp [relCount]
  | cons p1 rest ih =>
    intro ids out ids' hok hper i1 i2
    rw [relOuter] at hok
    cases h1 : relInner vid d c2hd p1 inner ids with
    | error e => rw [h1] at hok; simp at hok
    | ok t1 =>
      obtain ⟨out1, ids1⟩ := t1
      rw [h1] at hok
      simp only [] at hok
      cases h2 : relOuter vid d c2hd inner rest ids1 with
      | error e => rw [h2] at hok; simp at hok
      | ok t2 =>
        obtain ⟨out2, ids2⟩ := t2
        rw [h2] at hok
        simp only [] at hok
        injection hok with hok
        injection hok with ho hi
        rw [← ho, relCount_append]
        have hp1root := hper p1 (List.mem_cons_self _ _)
        have hc2 := ih ids1 out2 ids2 h2
          (fun p hp => hper p (List.mem_cons_of_mem _ hp)) i1 i2
        by_cases hp : p1.1 = i1
        · have hc1 := relInner_count vid d c2hd p1 hp1root inner ids out1 ids1 h1 hin i2
          rw [hp] at hc1
          rw [hc1, hc2]
          by_cases hco : emitCondB c2hd i1 i2 = true <;>
            simp [hco, List.countP_cons, hp, Nat.succ_mul] <;> omega
        · have hc1 : relCount out1 i1 i2 = 0 :=
            relCount_zero_of out1 p1.1 i1 i2
              (relInner_e1 vid d c2hd p1 inner ids out1 ids1 h1 hp1root) hp
          rw [hc1, hc2]
          simp [List.countP_cons, hp]

theorem countP_keys_eq_one (inner : List (Value × Props)) (i : Value)
    (hnd : (inner.map Prod.fst).Nodup) (hm : i ∈ inner.map Prod.fst) :
    inner.countP (fun p => p.1 == i) = 1 := by
  have h1 : inner.countP (fun p => p.1 == i) = (inner.map Prod.fst).countP (· == i) := by
    rw [List.countP_map]
    rfl
  rw [h1]
  exact List.count_eq_one_of_mem hnd hm

/-- C1: within one scope of the relation search, a strictly ordered pair of
distinct resolved root positions yields exactly one relation record iff
both positions have child-to-head entries with equal head positions; the
record's rel_text, rel_lemma and rel_i come from the first entity's entry,
and no record is emitted for the reversed ordering or for a self-pair. -/
theorem C1_pair_emission (vid : Option String) (d : Value)
    (c2hd : List (Value × DepEntry)) (inner : List (Value × Props))
    (ids : IdState) (out : List OutAnn) (ids' : IdState)
    (i1 i2 : Value) (e1 e2 : Props)
    (hnd : (inner.map Prod.fst).Nodup)
    (hroot : ∀ p ∈ inner, lookupA p.2 "root_i" = some p.1)
    (hm1 : (i1, e1) ∈ inner) (hm2 : (i2, e2) ∈ inner)
    (hlt : vlt i1 i2 = Except.ok true)
    (hok : relOuter vid d c2hd inner inner ids = Except.ok (out, ids')) :
    (relCount out i1 i2 = if relCondB c2hd i1 i2 then 1 else 0) ∧
    relCount out i2 i1 = 0 ∧
    relCount out i1 i1 = 0 ∧
    (∀ r ∈ out, isRelFor i1 i2 r = true →
      ∃ ch1 ch2, lookupA c2hd i1 = some ch1 ∧ lookupA c2hd i2 = some ch2 ∧
        ch1.head_i = ch2.head_i ∧
        lookupA r.properties "rel_text" = some ch1.head_text ∧
        lookupA r.properties "rel_lemma" = some ch1.head_lemma ∧
        lookupA r.properties "rel_i" = some ch1.head_i) := by
  have hcnt := relOuter_count vid d c2hd inner hroot inner ids out ids' hok hroot
  have hk1 : inner.countP (fun p => p.1 == i1) = 1 :=
    countP_keys_eq_one inner i1 hnd (List.mem_map_of_mem Prod.fst hm1)
  have hk2 : inner.countP (fun p => p.1 == i2) = 1 :=
    countP_keys_eq_one inner i2 hnd (List.mem_map_of_mem Prod.fst hm2)
  have hvb : vltB i1 i2 = true := (vltB_true_iff i1 i2).mpr hlt
  refine ⟨?_, ?_, ?_, ?_⟩
  · rw [hcnt i1 i2, hk1]
    by_cases hcb : relCondB c2hd i1 i2 = true
    · simp [emitCondB, hvb, hcb, hk2]
    · simp only [Bool.not_eq_true] at hcb
      simp [emitCondB, hvb, hcb]
  · rw [hcnt i2 i1]
    have hvb2 : vltB i2 i1 = false := by
      unfold vltB
      rw [vlt_asymm i1 i2 hlt]
    simp [emitCondB, hvb2]
  · rw [hcnt i1 i1]
    have hvb3 : vltB i1 i1 = false := by
      unfold vltB
      rw [vlt_irrefl i1]
    simp [emitCondB, hvb3]
  · intro r hr hfor
    obtain ⟨p1, p2, ch1, ch2, ps, doc, ident, hmem1, hmem2, hv, hl1, hl2, hh, hbp, hrd, hrr⟩ :=
      relOuter_sound vid d c2hd inner inner ids out ids' hok r hr
    obtain ⟨t1, l1, r1, w1, t2, l2, r2, w2, _, _, hroot1, _, _, _, hroot2, _, hps⟩ :=
      buildRelProps_spec p1.2 p2.2 ch1 ch2 ps hbp
    have hp1 := hroot p1 hmem1
    rw [hroot1] at hp1
    injection hp1 with hp1
    have hp2 := hroot p2 hmem2
    rw [hroot2] at hp2
    injection hp2 with hp2
    have hre1 : lookupA r.properties "e1_root_i" = some r1 := by
      rw [hrr, lookupA_addAnn_rel _ _ _ _ _ (by decide), hps]
      simp [lookupA]
    have hre2 : lookupA r.properties "e2_root_i" = some r2 := by
      rw [hrr, lookupA_addAnn_rel _ _ _ _ _ (by decide), hps]
      simp [lookupA]
    unfold isRelFor at hfor
    rw [hre1, hre2] at hfor
    simp only [Bool.and_eq_true, beq_iff_eq, Option.some.injEq] at hfor
    obtain ⟨hf1, hf2⟩ := hfor
    have hpe1 : p1.1 = i1 := by rw [← hp1, hf1]
    have hpe2 : p2.1 = i2 := by rw [← hp2, hf2]
    refine ⟨ch1, ch2, ?_, ?_, hh, ?_, ?_, ?_⟩
    · rw [← hpe1]; exact hl1
    · rw [← hpe2]; exact hl2
    · rw [hrr, lookupA_addAnn_rel _ _ _ _ _ (by decide), hps]
      simp [lookupA]
    · rw [hrr, lookupA_addAnn_rel _ _ _ _ _ (by decide), hps]
      simp [lookupA]
    · rw [hrr, lookupA_addAnn_rel _ _ _ _ _ (by decide), hps]
      simp [lookupA]

/-- Witness for C1 at a concrete input. -/
theorem C1_pair_emission_witness :
    (relCount
        [{ atType := UriNELR, id := "nelr1",
           properties :=
             [("e1_text", Value.s "A"), ("e1_label", Value.s "LA"),
              ("e1_root_i", Value.n 1), ("e1_wikidata_id", Value.s "Q1"),
              ("e1_dep", Value.s "nsubj"),
              ("e2_text", Value.s "B"), ("e2_label", Value.s "LB"),
              ("e2_root_i", Value.n 2), ("e2_wikidata_id", Value.s "Q2"),
              ("e2_dep", Value.s "dobj"),
              ("rel_text", Value.s "met"), ("rel_lemma", Value.s "meet"),
              ("rel_i", Value.n 5)] }]
        (Value.n 1) (Value.n 2) =
      if relCondB
          [(Value.n 1, ⟨Value.s "nsubj", Value.s "met", Value.s "meet", Value.n 5⟩),
           (Value.n 2, ⟨Value.s "dobj", Value.s "met", Value.s "meet", Value.n 5⟩)]
          (Value.n 1) (Value.n 2) then 1 else 0) ∧
    relCount
        [{ atType := UriNELR, id := "nelr1",
           properties :=
             [("e1_text", Value.s "A"), ("e1_label", Value.s "LA"),
              ("e1_root_i", Value.n 1), ("e1_wikidata_id", Value.s "Q1"),
              ("e1_dep", Value.s "nsubj"),
              ("e2_text", Value.s "B"), ("e2_label", Value.s "LB"),
              ("e2_root_i", Value.n 2), ("e2_wikidata_id", Value.s "Q2"),
              ("e2_dep", Value.s "dobj"),
              ("rel_text", Value.s "met"), ("rel_lemma", Value.s "meet"),
              ("rel_i", Value.n 5)] }]
        (Value.n 2) (Value.n 1) = 0 ∧
    relCount
        [{ atType := UriNELR, id := "nelr1",
           properties :=
             [("e1_text", Value.s "A"), ("e1_label", Value.s "LA"),
              ("e1_root_i", Value.n 1), ("e1_wikidata_id", Value.s "Q1"),
              ("e1_dep", Value.s "nsubj"),
              ("e2_text", Value.s "B"), ("e2_label", Value.s "LB"),
              ("e2_root_i", Value.n 2), ("e2_wikidata_id", Value.s "Q2"),
              ("e2_dep", Value.s "dobj"),
              ("rel_text", Value.s "met"), ("rel_lemma", Value.s "meet"),
              ("rel_i", Value.n 5)] }]
        (Value.n 1) (Value.n 1) = 0 ∧
    (∀ r ∈ [({ atType := UriNELR, id := "nelr1",
               properties :=
                 [("e1_text", Value.s "A"), ("e1_label", Value.s "LA"),
                  ("e1_root_i", Value.n 1), ("e1_wikidata_id", Value.s "Q1"),
                  ("e1_dep", Value.s "nsubj"),
                  ("e2_text", Value.s "B"), ("e2_label", Value.s "LB"),
                  ("e2_root_i", Value.n 2), ("e2_wikidata_id", Value.s "Q2"),
                  ("e2_dep", Value.s "dobj"),
                  ("rel_text", Value.s "met"), ("rel_lemma", Value.s "meet"),
                  ("rel_i", Value.n 5)] } : OutAnn)], isRelFor (Value.n 1) (Value.n 2) r = true →
      ∃ ch1 ch2,
        lookupA
          ([(Value.n 1, ⟨Value.s "nsubj", Value.s "met", Value.s "meet", Value.n 5⟩),
            (Value.n 2, ⟨Value.s "dobj", Value.s "met", Value.s "meet", Value.n 5⟩)] :
            List (Value × DepEntry))
          (Value.n 1) = some ch1 ∧
        lookupA
          ([(Value.n 1, ⟨Value.s "nsubj", Value.s "met", Value.s "meet", Value.n 5⟩),
            (Value.n 2, ⟨Value.s "dobj", Value.s "met", Value.s "meet", Value.n 5⟩)] :
            List (Value × DepEntry))
          (Value.n 2) = some ch2 ∧
        ch1.head_i = ch2.head_i ∧
        lookupA r.properties "rel_text" = some ch1.head_text ∧
        lookupA r.properties "rel_lemma" = some ch1.head_lemma ∧
        lookupA r.properties "rel_i" = some ch1.head_i) :=
  C1_pair_emission none (Value.n 0)
    [(Value.n 1, ⟨Value.s "nsubj", Value.s "met", Value.s "meet", Value.n 5⟩),
     (Value.n 2, ⟨Value.s "dobj", Value.s "met", Value.s "meet", Value.n 5⟩)]
    [(Value.n 1, [("root_i", Value.n 1), ("text", Value.s "A"),
       ("label", Value.s "LA"), ("wikidata_id", Value.s "Q1")]),
     (Value.n 2, [("root_i", Value.n 2), ("text", Value.s "B"),
       ("label", Value.s "LB"), ("wikidata_id", Value.s "Q2")])]
    [] _ _ (Value.n 1) (Value.n 2)
    [("root_i", Value.n 1), ("text", Value.s "A"),
     ("label", Value.s "LA"), ("wikidata_id", Value.s "Q1")]
    [("root_i", Value.n 2), ("text", Value.s "B"),
     ("label", Value.s "LB"), ("wikidata_id", Value.s "Q2")]
    (by decide) (by decide) (by decide) (by decide) rfl rfl

/-- C2: every relation record emitted by the relation search draws both
resolved entities from one scope's entry of the resolved-entity map and
both child-to-head entries from the same scope's index: no record mixes
two different document scope keys. -/
theorem C2_scope_isolation (vid : Option String) (c2h : C2H) (ints : Ints)
    (ids : IdState) (out : List OutAnn) (ids' : IdState)
    (hok : relScopes vid c2h ints ids = Except.ok (out, ids')) :
    ∀ r ∈ out, ∃ d inner p1 p2 ch1 ch2 ps doc ident,
      (d, inner) ∈ ints ∧ p1 ∈ inner ∧ p2 ∈ inner ∧
      vlt p1.1 p2.1 = Except.ok true ∧
      lookupA (findD c2h d []) p1.1 = some ch1 ∧
      lookupA (findD c2h d []) p2.1 = some ch2 ∧
      ch1.head_i = ch2.head_i ∧
      buildRelProps p1.2 p2.2 ch1 ch2 = Except.ok ps ∧
      relDoc vid d = Except.ok doc ∧
      r = addAnn UriNELR ident doc none none ps :=
  relScopes_sound vid c2h ints ids out ids' hok

/-- Witness for C2 at a concrete input. -/
theorem C2_scope_isolation_witness :
    ∃ d inner p1 p2 ch1 ch2 ps doc ident,
        (d, inner) ∈ ([(Value.n 0,
          [(Value.n 1, [("root_i", Value.n 1), ("text", Value.s "A"),
             ("label", Value.s "LA"), ("wikidata_id", Value.s "Q1")]),
           (Value.n 2, [("root_i", Value.n 2), ("text", Value.s "B"),
             ("label", Value.s "LB"), ("wikidata_id", Value.s "Q2")])])] : Ints) ∧
        p1 ∈ inner ∧ p2 ∈ inner ∧
        vlt p1.1 p2.1 = Except.ok true ∧
        lookupA (findD ([(Value.n 0,
          [(Value.n 1, ⟨Value.s "nsubj", Value.s "met", Value.s "meet", Value.n 5⟩),
           (Value.n 2, ⟨Value.s "dobj", Value.s "met", Value.s "meet", Value.n 5⟩)])] : C2H)
          d []) p1.1 = some ch1 ∧
        lookupA (findD ([(Value.n 0,
          [(Value.n 1, ⟨Value.s "nsubj", Value.s "met", Value.s "meet", Value.n 5⟩),
           (Value.n 2, ⟨Value.s "dobj", Value.s "met", Value.s "meet", Value.n 5⟩)])] : C2H)
          d []) p2.1 = some ch2 ∧
        ch1.head_i = ch2.head_i ∧
        buildRelProps p1.2 p2.2 ch1 ch2 = Except.ok ps ∧
        relDoc none d = Except.ok doc ∧
        ({ atType := UriNELR, id := "nelr1",
           properties :=
             [("e1_text", Value.s "A"), ("e1_label", Value.s "LA"),
              ("e1_root_i", Value.n 1), ("e1_wikidata_id", Value.s "Q1"),
              ("e1_dep", Value.s "nsubj"),
              ("e2_text", Value.s "B"), ("e2_label", Value.s "LB"),
              ("e2_root_i", Value.n 2), ("e2_wikidata_id", Value.s "Q2"),
              ("e2_dep", Value.s "dobj"),
              ("rel_text", Value.s "met"), ("rel_lemma", Value.s "meet"),
              ("rel_i", Value.n 5)] } : OutAnn) =
          addAnn UriNELR ident doc none none ps :=
  C2_scope_isolation none
    [(Value.n 0,
      [(Value.n 1, ⟨Value.s "nsubj", Value.s "met", Value.s "meet", Value.n 5⟩),
       (Value.n 2, ⟨Value.s "dobj", Value.s "met", Value.s "meet", Value.n 5⟩)])]
    [(Value.n 0,
      [(Value.n 1, [("root_i", Value.n 1), ("text", Value.s "A"),
         ("label", Value.s "LA"), ("wikidata_id", Value.s "Q1")]),
       (Value.n 2, [("root_i", Value.n 2), ("text", Value.s "B"),
         ("label", Value.s "LB"), ("wikidata_id", Value.s "Q2")])])]
    [] _ _ rfl
    { atType := UriNELR, id := "nelr1",
      properties :=
        [("e1_text", Value.s "A"), ("e1_label", Value.s "LA"),
         ("e1_root_i", Value.n 1), ("e1_wikidata_id", Value.s "Q1"),
         ("e1_dep", Value.s "nsubj"),
         ("e2_text", Value.s "B"), ("e2_label", Value.s "LB"),
         ("e2_root_i", Value.n 2), ("e2_wikidata_id", Value.s "Q2"),
         ("e2_dep", Value.s "dobj"),
         ("rel_text", Value.s "met"), ("rel_lemma", Value.s "meet"),
         ("rel_i", Value.n 5)] }
    (List.mem_cons_self _ _)

/-! ### Entity-link record property order -/

theorem entityRecordProps_shape (aprops entry : Props) (t : Value) (ps : Props)
    (h : entityRecordProps aprops entry t = Except.ok ps) :
    ∃ ps3, ps = propOrder.filterMap (fun k => (lookupA ps3 k).map (fun v => (k, v))) := by
  unfold entityRecordProps at h
  simp only [pget] at h
  cases hc : lookupA aprops "category" <;> rw [hc] at h
  · simp at h
  · cases hr : lookupA aprops "root_i" <;> rw [hr] at h
    · simp at h
    · simp only [] at h
      injection h with h
      exact ⟨_, h.symm⟩

theorem entityStep_ok_cases (kb : KB) (vid : Option String) (a : Ann) (ints : Ints)
    (ids : IdState) (o : List OutAnn) (ints' : Ints) (ids' : IdState)
    (hok : entityStep kb vid a ints ids = Except.ok (o, ints', ids')) :
    (o = [] ∧ ints' = ints ∧ ids' = ids ∧
      (¬a.atType = UriNE ∨
        ∃ t, lookupA a.properties "text" = some t ∧ (kb t).head? = none)) ∨
    (∃ doc t entry ps st en rooti,
      a.atType = UriNE ∧
      annDocId vid a = Except.ok doc ∧
      lookupA a.properties "text" = some t ∧
      (kb t).head? = some entry ∧
      entityRecordProps a.properties entry t = Except.ok ps ∧
      lookupA a.properties "start" = some st ∧
      lookupA a.properties "end" = some en ∧
      lookupA a.properties "root_i" = some rooti ∧
      o = [addAnn UriNEL (idNew ids "nel").1 doc (some st) (some en) ps] ∧
      ints' = insertA ints (scopeOf a) (insertA (findD ints (scopeOf a) []) rooti ps) ∧
      ids' = (idNew ids "nel").2) := by
  unfold entityStep at hok
  by_cases hty : a.atType = UriNE
  · rw [if_pos hty] at hok
    cases hd : annDocId vid a with
    | error e => rw [hd] at hok; simp at hok
    | ok doc =>
      rw [hd] at hok
      simp only [pget] at hok
      cases ht : lookupA a.properties "text" with
      | none => rw [ht] at hok; simp at hok
      | some t =>
        rw [ht] at hok
        simp only [] at hok
        cases hh : (kb t).head? with
        | none =>
          rw [hh] at hok
          injection hok with hok
          injection hok with h1 hok
          injection hok with h2 h3
          exact Or.inl ⟨h1.symm, h2.symm, h3.symm, Or.inr ⟨t, rfl, hh⟩⟩
        | some entry =>
          rw [hh] at hok
          simp only [] at hok
          cases hrp : entityRecordProps a.properties entry t with
          | error e => rw [hrp] at hok; simp at hok
          | ok ps =>
            rw [hrp] at hok
            cases hs : lookupA a.properties "start" with
            | none => rw [hs] at hok; simp at hok
            | some st =>
              rw [hs] at hok
              cases he : lookupA a.properties "end" with
              | none => rw [he] at hok; simp at hok
              | some en =>
                rw [he] at hok
                simp only [] at hok
                cases hro : lookupA a.properties "root_i" with
                | none => rw [hro] at hok; simp at hok
                | some rooti =>
                  rw [hro] at hok
                  simp only [] at hok
                  injection hok with hok
                  injection hok with h1 hok
                  injection hok with h2 h3
                  exact Or.inr ⟨doc, t, entry, ps, st, en, rooti, hty, rfl, rfl, hh,
                    hrp, rfl, rfl, rfl, h1.symm, h2.symm, h3.symm⟩
  · rw [if_neg hty] at hok
    injection hok with hok
    injection hok with h1 hok
    injection hok with h2 h3
    exact Or.inl ⟨h1.symm, h2.symm, h3.symm, Or.inl hty⟩

theorem entityLoop_records (kb : KB) (vid : Option String) :
    ∀ anns ints ids entOut ints' ids',
    entityLoop kb vid anns ints ids = Except.ok (entOut, ints', ids') →
    ∀ r ∈ entOut, r.atType = UriNEL ∧
      ∃ ident doc st en ps3,
        r = addAnn UriNEL ident doc (some st) (some en)
              (propOrder.filterMap (fun k => (lookupA ps3 k).map (fun v => (k, v)))) := by
  intro anns
  induction anns with
  | nil =>
    intro ints ids entOut ints' ids' hok r hr
    rw [entityLoop] at hok
    injection hok with hok
    injection hok with h1 _
    rw [← h1] at hr
    simp at hr
  | cons a rest ih =>
    intro ints ids entOut ints' ids' hok r hr
    rw [entityLoop] at hok
    cases h1 : entityStep kb vid a ints ids with
    | error e => rw [h1] at hok; simp at hok
    | ok t1 =>
      obtain ⟨o1, ints1, ids1⟩ := t1
      rw [h1] at hok
      simp only [] at hok
      cases h2 : entityLoop kb vid rest ints1 ids1 with
      | error e => rw [h2] at hok; simp at hok
      | ok t2 =>
        obtain ⟨o2, ints2, ids2⟩ := t2
        rw [h2] at hok
        simp only [] at hok
        injection hok with hok
        injection hok with ho _
        rw [← ho] at hr
        rcases List.mem_append.mp hr with hr1 | hr2
        · rcases entityStep_ok_cases kb vid a ints ids o1 ints1 ids1 h1 with
            ⟨hno, _, _⟩ | ⟨doc, t, entry, ps, st, en, rooti, _, _, _, _, hrp, _, _, _, hoeq, _, _⟩
          · rw [hno] at hr1; simp at hr1
          · rw [hoeq] at hr1
            simp only [List.mem_singleton] at hr1
            subst hr1
            obtain ⟨ps3, hps3⟩ := entityRecordProps_shape a.properties entry t ps hrp
            exact ⟨rfl, (idNew ids "nel").1, doc, st, en, ps3, by rw [hps3]⟩
        · exact ih ints1 ids1 o2 ints2 ids2 h2 r hr2

theorem map_fst_filterMap_lookup (l : List String) (ps3 : Props) :
    (l.filterMap (fun k => (lookupA ps3 k).map (fun v => (k, v)))).map Prod.fst =
      l.filter (fun k => (lookupA ps3 k).isSome) := by
  induction l with
  | nil => rfl
  | cons k rest ih => cases h : lookupA ps3 k <;> simp [List.filterMap_cons, h, ih]

theorem key_order_core (pre : List String) (hpre : ∀ k ∈ pre, ¬k ∈ propOrder)
    (p : String → Bool) :
    ((pre ++ propOrder.filter p).filter (fun k => propOrder.contains k)) =
      propOrder.filter (fun k => (pre ++ propOrder.filter p).contains k) := by
  rw [List.filter_append]
  have h1 : pre.filter (fun k => propOrder.contains k) = [] :=
    List.filter_eq_nil_iff.mpr (fun a ha => by simpa using hpre a ha)
  have h2 : (propOrder.filter p).filter (fun k => propOrder.contains k) =
      propOrder.filter p :=
    List.filter_eq_self.mpr (fun a ha => by
      simpa using List.mem_of_mem_filter ha)
  rw [h1, h2, List.nil_append]
  refine (List.filter_congr ?_).symm
  intro k hk
  have hk1 : ¬k ∈ pre := fun hc => hpre k hc hk
  by_cases hp : p k = true
  · have : k ∈ pre ++ propOrder.filter p :=
      List.mem_append_right _ (List.mem_filter.mpr ⟨hk, hp⟩)
    rw [hp]
    simpa using this
  · have : ¬k ∈ pre ++ propOrder.filter p := by
      intro hc
      rcases List.mem_append.mp hc with hc1 | hc2
      · exact hk1 hc1
      · exact hp (List.mem_filter.mp hc2).2
    simp only [Bool.not_eq_true] at hp
    rw [hp]
    simpa using this

theorem relScopes_atType (vid : Option String) (c2h : C2H) (ints : Ints) (ids : IdState)
    (out : List OutAnn) (ids' : IdState)
    (hok : relScopes vid c2h ints ids = Except.ok (out, ids')) :
    ∀ r ∈ out, r.atType = UriNELR := by
  intro r hr
  obtain ⟨d, inner, p1, p2, ch1, ch2, ps, doc, ident, _, _, _, _, _, _, _, _, _, hrr⟩ :=
    relScopes_sound vid c2h ints ids out ids' hok r hr
  rw [hrr]
  rfl

theorem addAnn_key_order (attype ident : String) (doc : Option Value) (st en : Value)
    (ps3 : Props) :
    (((addAnn attype ident doc (some st) (some en)
        (propOrder.filterMap (fun k => (lookupA ps3 k).map (fun v => (k, v))))).properties.map
        Prod.fst).filter (fun k => propOrder.contains k)) =
      propOrder.filter (fun k =>
        (((addAnn attype ident doc (some st) (some en)
          (propOrder.filterMap (fun k => (lookupA ps3 k).map (fun v => (k, v))))).properties.map
          Prod.fst).contains k)) := by
  cases doc with
  | none =>
    have hkeys : (addAnn attype ident none (some st) (some en)
        (propOrder.filterMap (fun k => (lookupA ps3 k).map (fun v => (k, v))))).properties.map
        Prod.fst = ["start", "end"] ++ propOrder.filter (fun k => (lookupA ps3 k).isSome) := by
      simp [addAnn, map_fst_filterMap_lookup]
    rw [hkeys]
    exact key_order_core ["start", "end"] (by decide) _
  | some dv =>
    have hkeys : (addAnn attype ident (some dv) (some st) (some en)
        (propOrder.filterMap (fun k => (lookupA ps3 k).map (fun v => (k, v))))).properties.map
        Prod.fst =
        ["document", "start", "end"] ++ propOrder.filter (fun k => (lookupA ps3 k).isSome) := by
      simp [addAnn, map_fst_filterMap_lookup]
    rw [hkeys]
    exact key_order_core ["document", "start", "end"] (by decide) _

/-- C7: every emitted entity-link record lists the display properties in
the fixed insertion order: restricting its property keys to the fixed
display-order list gives exactly that list filtered to the keys present. -/
theorem C7_property_order (kb : KB) (anns : List Ann) (vid : Option String)
    (ids : IdState) (out : List OutAnn) (ids' : IdState)
    (hok : addToolOutput kb anns vid ids = Except.ok (out, ids')) :
    ∀ r ∈ out, r.atType = UriNEL →
      (r.properties.map Prod.fst).filter (fun k => propOrder.contains k) =
        propOrder.filter (fun k => (r.properties.map Prod.fst).contains k) := by
  unfold addToolOutput at hok
  cases h1 : entityLoop kb vid anns [] ids with
  | error e => rw [h1] at hok; simp at hok
  | ok t1 =>
    obtain ⟨entOut, ints, ids1⟩ := t1
    rw [h1] at hok
    simp only [] at hok
    cases h2 : depLoop anns [] with
    | error e => rw [h2] at hok; simp at hok
    | ok c2h =>
      rw [h2] at hok
      simp only [] at hok
      cases h3 : relScopes vid c2h ints ids1 with
      | error e => rw [h3] at hok; simp at hok
      | ok t3 =>
        obtain ⟨relOut, ids2⟩ := t3
        rw [h3] at hok
        simp only [] at hok
        injection hok with hok
        injection hok with ho hi
        intro r hr hty
        rw [← ho] at hr
        rcases List.mem_append.mp hr with hr1 | hr2
        · obtain ⟨_, ident, doc, st, en, ps3, hrr⟩ :=
            entityLoop_records kb vid anns [] ids entOut ints ids1 h1 r hr1
          rw [hrr]
          exact addAnn_key_order UriNEL ident doc st en ps3
        · have := relScopes_atType vid c2h ints ids1 relOut ids2 h3 r hr2
          rw [this] at hty
          exact absurd hty (by decide)

/-- Witness for C7 at a concrete input. -/
theorem C7_property_order_witness :
    (({ atType := UriNEL, id := "nel1",
        properties :=
          [("start", Value.n 0), ("end", Value.n 1), ("root_i", Value.n 1),
           ("text", Value.s "A"), ("label", Value.s "L"),
           ("category", Value.s "PER"), ("wikidata_id", Value.s "Q1")] } :
       OutAnn).properties.map Prod.fst).filter (fun k => propOrder.contains k) =
      propOrder.filter (fun k =>
        (({ atType := UriNEL, id := "nel1",
            properties :=
              [("start", Value.n 0), ("end", Value.n 1), ("root_i", Value.n 1),
               ("text", Value.s "A"), ("label", Value.s "L"),
               ("category", Value.s "PER"), ("wikidata_id", Value.s "Q1")] } :
          OutAnn).properties.map Prod.fst).contains k) :=
  C7_property_order (fun _ => [[("id", Value.s "Q1"), ("label", Value.s "L")]])
    [{ atType := UriNE, properties :=
        [("text", Value.s "A"), ("category", Value.s "PER"), ("root_i", Value.n 1),
         ("start", Value.n 0), ("end", Value.n 1)] }]
    none [] _ _ rfl
    { atType := UriNEL, id := "nel1",
      properties :=
        [("start", Value.n 0), ("end", Value.n 1), ("root_i", Value.n 1),
         ("text", Value.s "A"), ("label", Value.s "L"),
         ("category", Value.s "PER"), ("wikidata_id", Value.s "Q1")] }
    (List.mem_cons_self _ _) rfl

/-! ### Resolved-entity map: matched entities and last-wins overwriting -/

theorem entityLoop_length (kb : KB) (vid : Option String) :
    ∀ anns ints ids entOut ints' ids',
    entityLoop kb vid anns ints ids = Except.ok (entOut, ints', ids') →
    entOut.length = anns.countP (isMatchedNE kb) := by
  intro anns
  induction anns with
  | nil =>
    intro ints ids entOut ints' ids' hok
    rw [entityLoop] at hok
    injection hok with hok
    injection hok with h1 _
    rw [← h1]
    rfl
  | cons a rest ih =>
    intro ints ids entOut ints' ids' hok
    rw [entityLoop] at hok
    cases h1 : entityStep kb vid a ints ids with
    | error e => rw [h1] at hok; simp at hok
    | ok t1 =>
      obtain ⟨o1, ints1, ids1⟩ := t1
      rw [h1] at hok
      simp only [] at hok
      cases h2 : entityLoop kb vid rest ints1 ids1 with
      | error e => rw [h2] at hok; simp at hok
      | ok t2 =>
        obtain ⟨o2, ints2, ids2⟩ := t2
        rw [h2] at hok
        simp only [] at hok
        injection hok with hok
        injection hok with ho _
        rw [← ho]
        have hlen := ih ints1 ids1 o2 ints2 ids2 h2
        rcases entityStep_ok_cases kb vid a ints ids o1 ints1 ids1 h1 with
          ⟨hno, _, _, hreason⟩ |
          ⟨doc, t, entry, ps, st, en, rooti, hty, _, ht, hh, _, _, _, _, hoeq, _, _⟩
        · have hpred : isMatchedNE kb a = false := by
            rcases hreason with hty | ⟨t, ht, hh⟩
            · simp [isMatchedNE, hty]
            · have : kb t = [] := by simpa using hh
              simp [isMatchedNE, ht, this]
          rw [hno]
          simp [List.countP_cons, hpred, hlen]
        · have hpred : isMatchedNE kb a = true := by
            cases hke : kb t with
            | nil => rw [hke] at hh; simp at hh
            | cons x xs => simp [isMatchedNE, hty, ht, hke]
          rw [hoeq]
          simp [List.countP_cons, hpred, hlen]

theorem entityLoop_ints_char (kb : KB) (vid : Option String) :
    ∀ anns ints0 ids entOut ints ids',
    entityLoop kb vid anns ints0 ids = Except.ok (entOut, ints, ids') →
    ∀ d i, lookupA (findD ints d []) i =
      (match (anns.filter (fun a => isMatchedNE kb a && (scopeOf a == d) &&
          (lookupA a.properties "root_i" == some i))).getLast? with
        | some a => resolvedProps kb a
        | none => lookupA (findD ints0 d []) i) := by
  intro anns
  induction anns with
  | nil =>
    intro ints0 ids entOut ints ids' hok d i
    rw [entityLoop] at hok
    injection hok with hok
    injection hok with _ hok
    injection hok with h2 _
    rw [← h2]
    rfl
  | cons a rest ih =>
    intro ints0 ids entOut ints ids' hok d i
    rw [entityLoop] at hok
    cases h1 : entityStep kb vid a ints0 ids with
    | error e => rw [h1] at hok; simp at hok
    | ok t1 =>
      obtain ⟨o1, ints1, ids1⟩ := t1
      rw [h1] at hok
      simp only [] at hok
      cases h2 : entityLoop kb vid rest ints1 ids1 with
      | error e => rw [h2] at hok; simp at hok
      | ok t2 =>
        obtain ⟨o2, ints2, ids2⟩ := t2
        rw [h2] at hok
        simp only [] at hok
        injection hok with hok
        injection hok with _ hok
        injection hok with hi2 _
        rw [← hi2]
        have hrest := ih ints1 ids1 o2 ints2 ids2 h2 d i
        rcases entityStep_ok_cases kb vid a ints0 ids o1 ints1 ids1 h1 with
          ⟨_, hint, _, hreason⟩ |
          ⟨doc, t, entry, ps, st, en, rooti, hty, _, ht, hh, hrp, _, _, hro, _, hintEq, _⟩
        · have hpred : (isMatchedNE kb a && (scopeOf a == d) &&
              (lookupA a.properties "root_i" == some i)) = false := by
            rcases hreason with hty | ⟨t, ht, hh⟩
            · simp [isMatchedNE, hty]
            · have : kb t = [] := by simpa using hh
              simp [isMatchedNE, ht, this]
          rw [List.filter_cons, hpred]
          rw [hint] at hrest
          simpa using hrest
        · have hmatched : isMatchedNE kb a = true := by
            cases hke : kb t with
            | nil => rw [hke] at hh; simp at hh
            | cons x xs => simp [isMatchedNE, hty, ht, hke]
          have hresolved : resolvedProps kb a = some ps := by
            simp [resolvedProps, ht, hh, hrp, Except.toOption]
          rw [hintEq] at hrest
          rw [List.filter_cons]
          by_cases hsc : scopeOf a = d
          · by_cases hri : rooti = i
            · have hpred : (isMatchedNE kb a && (scopeOf a == d) &&
                  (lookupA a.properties "root_i" == some i)) = true := by
                simp [hmatched, hsc, hro, hri]
              rw [hpred]
              simp only [if_true]
              cases hfr : rest.filter (fun a => isMatchedNE kb a && (scopeOf a == d) &&
                  (lookupA a.properties "root_i" == some i)) with
              | nil =>
                rw [hfr] at hrest
                simp only [List.getLast?_nil] at hrest
                rw [hrest, hsc]
                unfold findD
                rw [lookupA_insertA_self]
                simp only [Option.getD_some]
                rw [← hri, lookupA_insertA_self]
                exact hresolved.symm
              | cons x xs =>
                rw [List.getLast?_cons_cons]
                rw [hfr] at hrest
                have hne : (x :: xs).getLast? ≠ none := by
                  simp [List.getLast?_eq_none_iff]
                cases hla : (x :: xs).getLast? with
                | none => exact absurd hla hne
                | some la =>
                  rw [hla] at hrest
                  exact hrest
            · have hpred : (isMatchedNE kb a && (scopeOf a == d) &&
                  (lookupA a.properties "root_i" == some i)) = false := by
                simp [hro, hri]
              rw [hpred]
              rw [if_neg Bool.false_ne_true]
              cases hfr : rest.filter (fun a => isMatchedNE kb a && (scopeOf a == d) &&
                  (lookupA a.properties "root_i" == some i)) with
              | nil =>
                rw [hfr] at hrest
                simp only [List.getLast?_nil] at hrest
                rw [hrest, hsc]
                unfold findD
                rw [lookupA_insertA_self]
                simp only [Option.getD_some]
                rw [lookupA_insertA_ne _ _ _ _ (fun hc => hri hc.symm)]
                rfl
              | cons x xs =>
                rw [hfr] at hrest
                have hne : (x :: xs).getLast? ≠ none := by
                  simp [List.getLast?_eq_none_iff]
                cases hla : (x :: xs).getLast? with
                | none => exact absurd hla hne
                | some la =>
                  rw [hla] at hrest
                  exact hrest
          · have hpred : (isMatchedNE kb a && (scopeOf a == d) &&
                (lookupA a.properties "root_i" == some i)) = false := by
              simp [hsc]
            rw [hpred]
            rw [if_neg Bool.false_ne_true]
            cases hfr : rest.filter (fun a => isMatchedNE kb a && (scopeOf a == d) &&
                (lookupA a.properties "root_i" == some i)) with
            | nil =>
              rw [hfr] at hrest
              simp only [List.getLast?_nil] at hrest
              rw [hrest]
              unfold findD
              rw [lookupA_insertA_ne _ _ _ _ (fun hc => hsc hc.symm)]
              rfl
            | cons x xs =>
              rw [hfr] at hrest
              have hne : (x :: xs).getLast? ≠ none := by
                simp [List.getLast?_eq_none_iff]
              cases hla : (x :: xs).getLast? with
              | none => exact absurd hla hne
              | some la =>
                rw [hla] at hrest
                exact hrest

/-- C10: every matched entity annotation emits its own entity-link record
(the record count equals the matched count), but the per-scope
resolved-entity map keeps, for each scope key and root position, only the
properties of the last matched annotation with that scope and root: later
entries overwrite earlier ones. -/
theorem C10_duplicate_root_last_wins (kb : KB) (anns : List Ann) (vid : Option String)
    (ids : IdState) (entOut : List OutAnn) (ints : Ints) (ids' : IdState)
    (hok : entityLoop kb vid anns [] ids = Except.ok (entOut, ints, ids')) :
    entOut.length = anns.countP (isMatchedNE kb) ∧
    ∀ d i, lookupA (findD ints d []) i =
      (match (anns.filter (fun a => isMatchedNE kb a && (scopeOf a == d) &&
          (lookupA a.properties "root_i" == some i))).getLast? with
        | some a => resolvedProps kb a
        | none => none) := by
  refine ⟨entityLoop_length kb vid anns [] ids entOut ints ids' hok, ?_⟩
  intro d i
  rw [entityLoop_ints_char kb vid anns [] ids entOut ints ids' hok d i]
  cases (anns.filter (fun a => isMatchedNE kb a && (scopeOf a == d) &&
      (lookupA a.properties "root_i" == some i))).getLast? with
  | none => rfl
  | some a => rfl

/-- Witness for C10 at a concrete input. -/
theorem C10_duplicate_root_last_wins_witness :
    ([({ atType := UriNEL, id := "nel1",
         properties :=
           [("start", Value.n 0), ("end", Value.n 1), ("root_i", Value.n 1),
            ("text", Value.s "A"), ("label", Value.s "LA"),
            ("category", Value.s "PER"), ("wikidata_id", Value.s "QA")] } : OutAnn),
      { atType := UriNEL, id := "nel2",
        properties :=
          [("start", Value.n 2), ("end", Value.n 3), ("root_i", Value.n 1),
           ("text", Value.s "B"), ("label", Value.s "LB"),
           ("category", Value.s "PER"), ("wikidata_id", Value.s "QB")] }].length =
      List.countP
        (isMatchedNE (fun t =>
          match t with
          | Value.s "B" => [[("id", Value.s "QB"), ("label", Value.s "LB")]]
          | _ => [[("id", Value.s "QA"), ("label", Value.s "LA")]]))
        [{ atType := UriNE, properties :=
             [("text", Value.s "A"), ("category", Value.s "PER"), ("root_i", Value.n 1),
              ("start", Value.n 0), ("end", Value.n 1)] },
         { atType := UriNE, properties :=
             [("text", Value.s "B"), ("category", Value.s "PER"), ("root_i", Value.n 1),
              ("start", Value.n 2), ("end", Value.n 3)] }]) ∧
    ∀ d i, lookupA (findD
        ([(Value.n 0,
           [(Value.n 1,
             [("root_i", Value.n 1), ("text", Value.s "B"), ("label", Value.s "LB"),
              ("category", Value.s "PER"), ("wikidata_id", Value.s "QB")])])] : Ints)
        d []) i =
      (match (List.filter (fun a => isMatchedNE (fun t =>
          match t with
          | Value.s "B" => [[("id", Value.s "QB"), ("label", Value.s "LB")]]
          | _ => [[("id", Value.s "QA"), ("label", Value.s "LA")]]) a &&
            (scopeOf a == d) && (lookupA a.properties "root_i" == some i))
          [{ atType := UriNE, properties :=
               [("text", Value.s "A"), ("category", Value.s "PER"), ("root_i", Value.n 1),
                ("start", Value.n 0), ("end", Value.n 1)] },
           { atType := UriNE, properties :=
               [("text", Value.s "B"), ("category", Value.s "PER"), ("root_i", Value.n 1),
                ("start", Value.n 2), ("end", Value.n 3)] }]).getLast? with
        | some a => resolvedProps (fun t =>
            match t with
            | Value.s "B" => [[("id", Value.s "QB"), ("label", Value.s "LB")]]
            | _ => [[("id", Value.s "QA"), ("label", Value.s "LA")]]) a
        | none => none) :=
  C10_duplicate_root_last_wins
    (fun t =>
      match t with
      | Value.s "B" => [[("id", Value.s "QB"), ("label", Value.s "LB")]]
      | _ => [[("id", Value.s "QA"), ("label", Value.s "LA")]])
    [{ atType := UriNE, properties :=
         [("text", Value.s "A"), ("category", Value.s "PER"), ("root_i", Value.n 1),
          ("start", Value.n 0), ("end", Value.n 1)] },
     { atType := UriNE, properties :=
         [("text", Value.s "B"), ("category", Value.s "PER"), ("root_i", Value.n 1),
          ("start", Value.n 2), ("end", Value.n 3)] }]
    none [] _ _ _ rfl

/-! ### View scan -/

theorem annotateViews_forall2 (kb : KB) :
    ∀ views ids outs ids', annotateViews kb views ids = Except.ok (outs, ids') →
    List.Forall₂ (viewMatches kb) (views.filter eligibleView) outs := by
  intro views
  induction views with
  | nil =>
    intro ids outs ids' hok
    rw [annotateViews] at hok
    injection hok with hok
    injection hok with h1 _
    rw [← h1]
    exact List.Forall₂.nil
  | cons v rest ih =>
    intro ids outs ids' hok
    rw [annotateViews] at hok
    by_cases hel : eligibleView v
    · rw [if_pos hel] at hok
      cases hd : viewDocId v with
      | error e => rw [hd] at hok; simp at hok
      | ok doc =>
        rw [hd] at hok
        simp only [] at hok
        cases doc with
        | none =>
          cases ha : addToolOutput kb v.anns (some v.id) ids with
          | error e => rw [ha] at hok; simp at hok
          | ok t1 =>
            obtain ⟨recs, ids1⟩ := t1
            rw [ha] at hok
            simp only [] at hok
            cases h2 : annotateViews kb rest ids1 with
            | error e => rw [h2] at hok; simp at hok
            | ok t2 =>
              obtain ⟨outs2, ids2⟩ := t2
              rw [h2] at hok
              simp only [] at hok
              injection hok with hok
              injection hok with ho _
              rw [← ho, List.filter_cons, if_pos (by simpa using hel)]
              exact List.Forall₂.cons ⟨hd, ids, ids1, ha⟩ (ih ids1 outs2 ids2 h2)
        | some dv =>
          cases ha : addToolOutput kb v.anns none ids with
          | error e => rw [ha] at hok; simp at hok
          | ok t1 =>
            obtain ⟨recs, ids1⟩ := t1
            rw [ha] at hok
            simp only [] at hok
            cases h2 : annotateViews kb rest ids1 with
            | error e => rw [h2] at hok; simp at hok
            | ok t2 =>
              obtain ⟨outs2, ids2⟩ := t2
              rw [h2] at hok
              simp only [] at hok
              injection hok with hok
              injection hok with ho _
              rw [← ho, List.filter_cons, if_pos (by simpa using hel)]
              exact List.Forall₂.cons ⟨hd, ids, ids1, ha⟩ (ih ids1 outs2 ids2 h2)
    · rw [if_neg hel] at hok
      rw [List.filter_cons, if_neg (by simpa using hel)]
      exact ih ids outs ids' hok

theorem viewDocIdAux (vid0 : String) :
    ∀ (cs : List (String × Props)) (acc res : Option String),
    (cs.foldlM (fun acc c =>
      if basename c.1 = "NamedEntity" then
        match lookupA c.2 "document" with
        | some (Value.s t) => Except.ok (some (vid0 ++ ":" ++ t))
        | some (Value.n _) => Except.error "TypeError: can only concatenate str"
        | none => Except.ok acc
      else Except.ok acc) acc) = Except.ok res →
    res = acc ∨ ∃ c desc dv, (c, desc) ∈ cs ∧ basename c = "NamedEntity" ∧
      lookupA desc "document" = some (Value.s dv) ∧ res = some (vid0 ++ ":" ++ dv) := by
  intro cs
  induction cs with
  | nil =>
    intro acc res hok
    rw [List.foldlM_nil] at hok
    injection hok with hok
    exact Or.inl hok.symm
  | cons c cs ih =>
    intro acc res hok
    rw [List.foldlM_cons] at hok
    by_cases hb : basename c.1 = "NamedEntity"
    · rw [if_pos hb] at hok
      cases hl : lookupA c.2 "document" with
      | none =>
        rw [hl] at hok
        rcases ih acc res hok with h | ⟨c', desc, dv, hm, hrest⟩
        · exact Or.inl h
        · exact Or.inr ⟨c', desc, dv, List.mem_cons_of_mem _ hm, hrest⟩
      | some dv =>
        cases dv with
        | s t =>
          rw [hl] at hok
          rcases ih (some (vid0 ++ ":" ++ t)) res hok with h | ⟨c', desc, dv', hm, hrest⟩
          · exact Or.inr ⟨c.1, c.2, t, by simp, hb, hl, h⟩
          · exact Or.inr ⟨c', desc, dv', List.mem_cons_of_mem _ hm, hrest⟩
        | n x =>
          rw [hl] at hok
          have hcontra : (Except.error "TypeError: can only concatenate str" :
              Except String (Option String)) = Except.ok res := hok
          simp at hcontra
    · rw [if_neg hb] at hok
      rcases ih acc res hok with h | ⟨c', desc, dv, hm, hrest⟩
      · exact Or.inl h
      · exact Or.inr ⟨c', desc, dv, List.mem_cons_of_mem _ hm, hrest⟩

theorem viewDocIdNoneAux (vid0 : String) :
    ∀ (cs : List (String × Props)) (acc : Option String),
    (∀ c ∈ cs, basename c.1 = "NamedEntity" → lookupA c.2 "document" = none) →
    (cs.foldlM (fun acc c =>
      if basename c.1 = "NamedEntity" then
        match lookupA c.2 "document" with
        | some (Value.s t) => Except.ok (some (vid0 ++ ":" ++ t))
        | some (Value.n _) => Except.error "TypeError: can only concatenate str"
        | none => Except.ok acc
      else Except.ok acc) acc) = Except.ok acc := by
  intro cs
  induction cs with
  | nil => intro acc _; rfl
  | cons c cs ih =>
    intro acc hn
    rw [List.foldlM_cons]
    by_cases hb : basename c.1 = "NamedEntity"
    · rw [if_pos hb, hn c (List.mem_cons_self _ _) hb]
      exact ih acc (fun c' hc' => hn c' (List.mem_cons_of_mem _ hc'))
    · rw [if_neg hb]
      exact ih acc (fun c' hc' => hn c' (List.mem_cons_of_mem _ hc'))

theorem viewDocIdNone (v : View)
    (hnone : ∀ c ∈ v.contains, basename c.1 = "NamedEntity" →
      lookupA c.2 "document" = none) :
    viewDocId v = Except.ok none :=
  viewDocIdNoneAux v.id v.contains none hnone

theorem annotateViews_no_eligible (kb : KB) :
    ∀ views ids, (∀ v ∈ views, eligibleView v = false) →
    annotateViews kb views ids = Except.ok ([], ids) := by
  intro views
  induction views with
  | nil => intro ids _; rfl
  | cons v rest ih =>
    intro ids hall
    rw [annotateViews,
      if_neg (by simp [hall v (List.mem_cons_self _ _)] : ¬eligibleView v = true)]
    exact ih ids (fun v' hv' => hall v' (List.mem_cons_of_mem _ hv'))

/-- C6: a view is processed (one output view is opened for it) iff its
producing-app identifier contains the marker token and its contained types
include the entity type, in order; an output view's document id is the
source view id joined by ':' with a document sub-field found on a
NamedEntity descriptor (and is absent when no such sub-field exists), and
the source view id is passed down for per-annotation qualification exactly
when the document id is absent; a container with no eligible view yields
an unchanged container and no error. -/
theorem C6_view_scan (kb : KB) :
    (∀ views ids outs ids', annotateViews kb views ids = Except.ok (outs, ids') →
      List.Forall₂ (viewMatches kb) (views.filter eligibleView) outs) ∧
    (∀ v s, viewDocId v = Except.ok (some s) →
      ∃ c desc dv, (c, desc) ∈ v.contains ∧ basename c = "NamedEntity" ∧
        lookupA desc "document" = some (Value.s dv) ∧ s = v.id ++ ":" ++ dv) ∧
    (∀ v : View, (∀ c ∈ v.contains, basename c.1 = "NamedEntity" →
      lookupA c.2 "document" = none) → viewDocId v = Except.ok none) ∧
    (∀ views, (∀ v ∈ views, eligibleView v = false) →
      annotate kb views = Except.ok []) := by
  refine ⟨annotateViews_forall2 kb, ?_, viewDocIdNone, ?_⟩
  · intro v s h
    rcases viewDocIdAux v.id v.contains none (some s) h with h1 | ⟨c, desc, dv, hm, hb, hl, hs⟩
    · exact absurd h1 (by simp)
    · injection hs with hs
      exact ⟨c, desc, dv, hm, hb, hl, hs⟩
  · intro views hall
    unfold annotate
    rw [annotateViews_no_eligible kb views [] hall]

/-- Witness for C6 at concrete inputs. -/
theorem C6_view_scan_witness :
    List.Forall₂ (viewMatches kbScenario1) ([viewScenario1Cat].filter eligibleView)
      [{ docid := some "v1:d1",
         anns := [{ atType := UriNEL, id := "nel1",
                    properties :=
                      [("start", Value.n 0), ("end", Value.n 5),
                       ("root_i", Value.n 3), ("text", Value.s "Paris"),
                       ("label", Value.s "Paris"), ("category", Value.s "GPE"),
                       ("description", Value.s "capital of France"),
                       ("wikidata_id", Value.s "Q90"),
                       ("url", Value.s "https://www.wikidata.org/wiki/Q90")] }] }] ∧
    annotate kbScenario1
      [{ id := "v9", app := "http://apps.clams.ai/tokenizer", contains := [], anns := [] }] =
      Except.ok [] :=
  ⟨(C6_view_scan kbScenario1).1 [viewScenario1Cat] [] _ _ rfl,
   (C6_view_scan kbScenario1).2.2.2
     [{ id := "v9", app := "http://apps.clams.ai/tokenizer", contains := [], anns := [] }]
     (by decide)⟩

/-! ### Identifier sequences -/

theorem string_append_left_cancel (s t u : String) (h : s ++ t = s ++ u) : t = u := by
  have h2 := congrArg String.data h
  simp only [String.data_append] at h2
  have h3 := List.append_cancel_left h2
  cases t
  cases u
  exact congrArg String.mk h3

theorem idsFrom_inj_arg (pfx : String) (c : Nat) : Function.Injective
    (fun k => pfx ++ natStr (c + k + 1)) := by
  intro a b h
  have h2 := string_append_left_cancel pfx _ _ h
  unfold natStr at h2
  injection h2 with h2
  have := decDigits_inj _ _ h2
  omega

theorem idsFrom_nodup (pfx : String) (c n : Nat) : (idsFrom pfx c n).Nodup :=
  (List.nodup_range n).map (idsFrom_inj_arg pfx c)

theorem idsFrom_cons (pfx : String) (c n : Nat) :
    idsFrom pfx c (n + 1) = (pfx ++ natStr (c + 1)) :: idsFrom pfx (c + 1) n := by
  unfold idsFrom
  rw [List.range_succ_eq_map, List.map_cons, List.map_map]
  refine congrArg₂ _ (by simp) (List.map_congr_left ?_)
  intro k _
  simp only [Function.comp]
  have heq : c + (k + 1) + 1 = c + 1 + k + 1 := by omega
  rw [heq]

theorem idsFrom_append (pfx : String) (c n1 n2 : Nat) :
    idsFrom pfx c n1 ++ idsFrom pfx (c + n1) n2 = idsFrom pfx c (n1 + n2) := by
  unfold idsFrom
  rw [List.range_add, List.map_append, List.map_map]
  refine congrArg₂ _ rfl (List.map_congr_left ?_)
  intro k _
  simp only [Function.comp]
  have heq : c + (n1 + k) + 1 = c + n1 + k + 1 := by omega
  rw [heq]

theorem idTrace_nil (pfx : String) (ids : IdState) : idTrace pfx [] ids ids := by
  constructor
  · rfl
  · simp

theorem idTrace_append (pfx : String) (out1 out2 : List OutAnn) (ids ids1 ids2 : IdState)
    (h1 : idTrace pfx out1 ids ids1) (h2 : idTrace pfx out2 ids1 ids2) :
    idTrace pfx (out1 ++ out2) ids ids2 := by
  obtain ⟨hm1, hc1⟩ := h1
  obtain ⟨hm2, hc2⟩ := h2
  constructor
  · rw [List.map_append, hm1, hm2, hc1, List.length_append, idsFrom_append]
  · rw [hc2, hc1, List.length_append]
    omega

theorem idCount_idNew_self (ids : IdState) (pfx : String) :
    idCount (idNew ids pfx).2 pfx = idCount ids pfx + 1 := by
  unfold idNew idCount findD
  rw [lookupA_insertA_self]
  rfl

theorem idCount_idNew_other (ids : IdState) (pfx q : String) (h : ¬q = pfx) :
    idCount (idNew ids pfx).2 q = idCount ids q := by
  unfold idNew idCount findD
  rw [lookupA_insertA_ne _ _ _ _ h]

theorem idTrace_single (pfx : String) (r : OutAnn) (ids : IdState)
    (hid : r.id = (idNew ids pfx).1) :
    idTrace pfx [r] ids (idNew ids pfx).2 := by
  constructor
  · simp only [List.map_cons, List.map_nil, List.length_singleton]
    rw [hid]
    unfold idNew idsFrom
    simp [List.range_succ_eq_map]
  · rw [idCount_idNew_self]
    rfl

theorem idTrace_shift_start (pfx : String) (out : List OutAnn) (ids0 ids ids' : IdState)
    (h : idTrace pfx out ids ids') (hc : idCount ids pfx = idCount ids0 pfx) :
    idTrace pfx out ids0 ids' := by
  obtain ⟨hm, hcnt⟩ := h
  rw [hc] at hm hcnt
  exact ⟨hm, hcnt⟩

theorem idTrace_shift_end (pfx : String) (out : List OutAnn) (ids ids' ids2 : IdState)
    (h : idTrace pfx out ids ids') (hc : idCount ids2 pfx = idCount ids' pfx) :
    idTrace pfx out ids ids2 := by
  obtain ⟨hm, hcnt⟩ := h
  exact ⟨hm, hc.trans hcnt⟩

theorem entityStep_ids (kb : KB) (vid : Option String) (a : Ann) (ints : Ints)
    (ids : IdState) (o : List OutAnn) (ints' : Ints) (ids' : IdState)
    (hok : entityStep kb vid a ints ids = Except.ok (o, ints', ids')) :
    idTrace "nel" o ids ids' ∧ ∀ q, ¬q = "nel" → idCount ids' q = idCount ids q := by
  rcases entityStep_ok_cases kb vid a ints ids o ints' ids' hok with
    ⟨ho, _, hids, _⟩ | ⟨doc, t, entry, ps, st, en, rooti, _, _, _, _, _, _, _, _, ho, _, hids⟩
  · subst ho hids
    exact ⟨idTrace_nil "nel" _, fun q _ => rfl⟩
  · subst ho hids
    exact ⟨idTrace_single "nel" _ _ rfl, fun q hq => idCount_idNew_other _ "nel" q hq⟩

theorem entityLoop_ids (kb : KB) (vid : Option String) :
    ∀ anns ints ids out ints' ids',
    entityLoop kb vid anns ints ids = Except.ok (out, ints', ids') →
    idTrace "nel" out ids ids' ∧ ∀ q, ¬q = "nel" → idCount ids' q = idCount ids q := by
  intro anns
  induction anns with
  | nil =>
    intro ints ids out ints' ids' hok
    rw [entityLoop] at hok
    injection hok with hok
    injection hok with h1 hok
    injection hok with _ h3
    rw [← h1, ← h3]
    exact ⟨idTrace_nil "nel" ids, fun q _ => rfl⟩
  | cons a rest ih =>
    intro ints ids out ints' ids' hok
    rw [entityLoop] at hok
    cases h1 : entityStep kb vid a ints ids with
    | error e => rw [h1] at hok; simp at hok
    | ok t1 =>
      obtain ⟨o1, ints1, ids1⟩ := t1
      rw [h1] at hok
      simp only [] at hok
      cases h2 : entityLoop kb vid rest ints1 ids1 with
      | error e => rw [h2] at hok; simp at hok
      | ok t2 =>
        obtain ⟨o2, ints2, ids2⟩ := t2
        rw [h2] at hok
        simp only [] at hok
        injection hok with hok
        injection hok with ho hok
        injection hok with _ h3
        rw [← ho, ← h3]
        obtain ⟨ht1, hp1⟩ := entityStep_ids kb vid a ints ids o1 ints1 ids1 h1
        obtain ⟨ht2, hp2⟩ := ih ints1 ids1 o2 ints2 ids2 h2
        exact ⟨idTrace_append "nel" o1 o2 ids ids1 ids2 ht1 ht2,
          fun q hq => (hp2 q hq).trans (hp1 q hq)⟩

theorem relStep_ids (vid : Option String) (d : Value) (c2hd : List (Value × DepEntry))
    (p1 p2 : Value × Props) (ids : IdState) (o : Option OutAnn) (ids' : IdState)
    (hok : relStep vid d c2hd p1 p2 ids = Except.ok (o, ids')) :
    idTrace "nelr" o.toList ids ids' ∧ ∀ q, ¬q = "nelr" → idCount ids' q = idCount ids q := by
  rcases relStep_ok_cases vid d c2hd p1 p2 ids o ids' hok with
    ⟨ho, hids, _⟩ | ⟨ch1, ch2, ps, doc, _, _, _, _, _, _, ho, hids⟩
  · subst ho hids
    exact ⟨idTrace_nil "nelr" _, fun q _ => rfl⟩
  · subst ho hids
    exact ⟨idTrace_single "nelr" _ _ rfl, fun q hq => idCount_idNew_other _ "nelr" q hq⟩

theorem relInner_ids (vid : Option String) (d : Value) (c2hd : List (Value × DepEntry))
    (p1 : Value × Props) :
    ∀ l ids out ids', relInner vid d c2hd p1 l ids = Except.ok (out, ids') →
    idTrace "nelr" out ids ids' ∧ ∀ q, ¬q = "nelr" → idCount ids' q = idCount ids q := by
  intro l
  induction l with
  | nil =>
    intro ids out ids' hok
    rw [relInner] at hok
    injection hok with hok
    injection hok with h1 h2
    rw [← h1, ← h2]
    exact ⟨idTrace_nil "nelr" ids, fun q _ => rfl⟩
  | cons p2 rest ih =>
    intro ids out ids' hok
    rw [relInner] at hok
    cases h1 : relStep vid d c2hd p1 p2 ids with
    | error e => rw [h1] at hok; simp at hok
    | ok t1 =>
      obtain ⟨o, ids1⟩ := t1
      rw [h1] at hok
      simp only [] at hok
      cases h2 : relInner vid d c2hd p1 rest ids1 with
      | error e => rw [h2] at hok; simp at hok
      | ok t2 =>
        obtain ⟨out2, ids2⟩ := t2
        rw [h2] at hok
        simp only [] at hok
        injection hok with hok
        injection hok with ho h3
        rw [← ho, ← h3]
        obtain ⟨ht1, hp1⟩ := relStep_ids vid d c2hd p1 p2 ids o ids1 h1
        obtain ⟨ht2, hp2⟩ := ih ids1 out2 ids2 h2
        exact ⟨idTrace_append "nelr" o.toList out2 ids ids1 ids2 ht1 ht2,
          fun q hq => (hp2 q hq).trans (hp1 q hq)⟩

theorem relOuter_ids (vid : Option String) (d : Value) (c2hd : List (Value × DepEntry))
    (inner : List (Value × Props)) :
    ∀ l ids out ids', relOuter vid d c2hd inner l ids = Except.ok (out, ids') →
    idTrace "nelr" out ids ids' ∧ ∀ q, ¬q = "nelr" → idCount ids' q = idCount ids q := by
  intro l
  induction l with
  | nil =>
    intro ids out ids' hok
    rw [relOuter] at hok
    injection hok with hok
    injection hok with h1 h2
    rw [← h1, ← h2]
    exact ⟨idTrace_nil "nelr" ids, fun q _ => rfl⟩
  | cons p1 rest ih =>
    intro ids out ids' hok
    rw [relOuter] at hok
    cases h1 : relInner vid d c2hd p1 inner ids with
    | error e => rw [h1] at hok; simp at hok
    | ok t1 =>
      obtain ⟨o1, ids1⟩ := t1
      rw [h1] at hok
      simp only [] at hok
      cases h2 : relOuter vid d c2hd inner rest ids1 with
      | error e => rw [h2] at hok; simp at hok
      | ok t2 =>
        obtain ⟨o2, ids2⟩ := t2
        rw [h2] at hok
        simp only [] at hok
        injection hok with hok
        injection hok with ho h3
        rw [← ho, ← h3]
        obtain ⟨ht1, hp1⟩ := relInner_ids vid d c2hd p1 inner ids o1 ids1 h1
        obtain ⟨ht2, hp2⟩ := ih ids1 o2 ids2 h2
        exact ⟨idTrace_append "nelr" o1 o2 ids ids1 ids2 ht1 ht2,
          fun q hq => (hp2 q hq).trans (hp1 q hq)⟩

theorem relScopes_ids (vid : Option String) (c2h : C2H) :
    ∀ ints ids out ids', relScopes vid c2h ints ids = Except.ok (out, ids') →
    idTrace "nelr" out ids ids' ∧ ∀ q, ¬q = "nelr" → idCount ids' q = idCount ids q := by
  intro ints
  induction ints with
  | nil =>
    intro ids out ids' hok
    rw [relScopes] at hok
    injection hok with hok
    injection hok with h1 h2
    rw [← h1, ← h2]
    exact ⟨idTrace_nil "nelr" ids, fun q _ => rfl⟩
  | cons sc rest ih =>
    obtain ⟨d0, inner0⟩ := sc
    intro ids out ids' hok
    rw [relScopes] at hok
    cases h1 : relOuter vid d0 (findD c2h d0 []) inner0 inner0 ids with
    | error e => rw [h1] at hok; simp at hok
    | ok t1 =>
      obtain ⟨o1, ids1⟩ := t1
      rw [h1] at hok
      simp only [] at hok
      cases h2 : relScopes vid c2h rest ids1 with
      | error e => rw [h2] at hok; simp at hok
      | ok t2 =>
        obtain ⟨o2, ids2⟩ := t2
        rw [h2] at hok
        simp only [] at hok
        injection hok with hok
        injection hok with ho h3
        rw [← ho, ← h3]
        obtain ⟨ht1, hp1⟩ := relOuter_ids vid d0 (findD c2h d0 []) inner0 inner0 ids o1 ids1 h1
        obtain ⟨ht2, hp2⟩ := ih ids1 o2 ids2 h2
        exact ⟨idTrace_append "nelr" o1 o2 ids ids1 ids2 ht1 ht2,
          fun q hq => (hp2 q hq).trans (hp1 q hq)⟩

theorem addToolOutput_ids (kb : KB) (anns : List Ann) (vid : Option String)
    (ids : IdState) (out : List OutAnn) (ids' : IdState)
    (hok : addToolOutput kb anns vid ids = Except.ok (out, ids')) :
    ∃ entOut relOut, out = entOut ++ relOut ∧
      (∀ r ∈ entOut, r.atType = UriNEL) ∧ (∀ r ∈ relOut, r.atType = UriNELR) ∧
      idTrace "nel" entOut ids ids' ∧ idTrace "nelr" relOut ids ids' := by
  unfold addToolOutput at hok
  cases h1 : entityLoop kb vid anns [] ids with
  | error e => rw [h1] at hok; simp at hok
  | ok t1 =>
    obtain ⟨entOut, ints, ids1⟩ := t1
    rw [h1] at hok
    simp only [] at hok
    cases h2 : depLoop anns [] with
    | error e => rw [h2] at hok; simp at hok
    | ok c2h =>
      rw [h2] at hok
      simp only [] at hok
      cases h3 : relScopes vid c2h ints ids1 with
      | error e => rw [h3] at hok; simp at hok
      | ok t3 =>
        obtain ⟨relOut, ids2⟩ := t3
        rw [h3] at hok
        simp only [] at hok
        injection hok with hok
        injection hok with ho hi
        obtain ⟨htE, hpE⟩ := entityLoop_ids kb vid anns [] ids entOut ints ids1 h1
        obtain ⟨htR, hpR⟩ := relScopes_ids vid c2h ints ids1 relOut ids2 h3
        refine ⟨entOut, relOut, ho.symm, ?_, ?_, ?_, ?_⟩
        · exact fun r hr => (entityLoop_records kb vid anns [] ids entOut ints ids1 h1 r hr).1
        · exact relScopes_atType vid c2h ints ids1 relOut ids2 h3
        · rw [← hi]
          exact idTrace_shift_end "nel" entOut ids ids1 ids2 htE (hpR "nel" (by decide))
        · rw [← hi]
          exact idTrace_shift_start "nelr" relOut ids ids1 ids2 htR (hpE "nelr" (by decide))

theorem filter_all_eq (out : List OutAnn) (ty : String) (h : ∀ r ∈ out, r.atType = ty) :
    out.filter (fun r => r.atType == ty) = out :=
  List.filter_eq_self.mpr fun r hr => by simp [h r hr]

theorem filter_none_eq (out : List OutAnn) (ty ty' : String)
    (h : ∀ r ∈ out, r.atType = ty') (hne : ¬ty' = ty) :
    out.filter (fun r => r.atType == ty) = [] :=
  List.filter_eq_nil_iff.mpr fun r hr => by simp [h r hr, hne]

theorem annotateViews_ids (kb : KB) :
    ∀ views ids outs ids', annotateViews kb views ids = Except.ok (outs, ids') →
    idTrace "nel"
      ((outs.flatMap (fun o => o.anns)).filter (fun r => r.atType == UriNEL)) ids ids' ∧
    idTrace "nelr"
      ((outs.flatMap (fun o => o.anns)).filter (fun r => r.atType == UriNELR)) ids ids' := by
  intro views
  induction views with
  | nil =>
    intro ids outs ids' hok
    rw [annotateViews] at hok
    injection hok with hok
    injection hok with h1 h2
    rw [← h1, ← h2]
    exact ⟨idTrace_nil "nel" _, idTrace_nil "nelr" _⟩
  | cons v rest ih =>
    intro ids outs ids' hok
    rw [annotateViews] at hok
    by_cases hel : eligibleView v
    · rw [if_pos hel] at hok
      cases hd : viewDocId v with
      | error e => rw [hd] at hok; simp at hok
      | ok doc =>
        rw [hd] at hok
        simp only [] at hok
        cases doc with
        | none =>
          cases ha : addToolOutput kb v.anns (some v.id) ids with
          | error e => rw [ha] at hok; simp at hok
          | ok t1 =>
            obtain ⟨recs, ids1⟩ := t1
            rw [ha] at hok
            simp only [] at hok
            cases h2 : annotateViews kb rest ids1 with
            | error e => rw [h2] at hok; simp at hok
            | ok t2 =>
              obtain ⟨outs2, ids2⟩ := t2
              rw [h2] at hok
              simp only [] at hok
              injection hok with hok
              injection hok with ho h3
              rw [← ho, ← h3]
              obtain ⟨entOut, relOut, hrecs, hEty, hRty, htE, htR⟩ :=
                addToolOutput_ids kb v.anns _ ids recs ids1 ha
              obtain ⟨ihE, ihR⟩ := ih ids1 outs2 ids2 h2
              have hflat : (({ docid := none, anns := recs } : OutView) :: outs2).flatMap
                  (fun o => o.anns) = recs ++ outs2.flatMap (fun o => o.anns) := by
                rw [List.flatMap_cons]
              rw [hflat, hrecs]
              constructor
              · have hfil : ((entOut ++ relOut) ++ outs2.flatMap (fun o => o.anns)).filter
                    (fun r => r.atType == UriNEL) =
                    entOut ++ (outs2.flatMap (fun o => o.anns)).filter
                      (fun r => r.atType == UriNEL) := by
                  rw [List.filter_append, List.filter_append,
                    filter_all_eq entOut UriNEL hEty,
                    filter_none_eq relOut UriNEL UriNELR hRty (by decide),
                    List.append_nil]
                rw [hfil]
                exact idTrace_append "nel" _ _ ids ids1 ids2 htE ihE
              · have hfil : ((entOut ++ relOut) ++ outs2.flatMap (fun o => o.anns)).filter
                    (fun r => r.atType == UriNELR) =
                    relOut ++ (outs2.flatMap (fun o => o.anns)).filter
                      (fun r => r.atType == UriNELR) := by
                  rw [List.filter_append, List.filter_append,
                    filter_all_eq relOut UriNELR hRty,
                    filter_none_eq entOut UriNELR UriNEL hEty (by decide)]
                  rfl
                rw [hfil]
                exact idTrace_append "nelr" _ _ ids ids1 ids2 htR ihR
        | some dv =>
          cases ha : addToolOutput kb v.anns none ids with
          | error e => rw [ha] at hok; simp at hok
          | ok t1 =>
            obtain ⟨recs, ids1⟩ := t1
            rw [ha] at hok
            simp only [] at hok
            cases h2 : annotateViews kb rest ids1 with
            | error e => rw [h2] at hok; simp at hok
            | ok t2 =>
              obtain ⟨outs2, ids2⟩ := t2
              rw [h2] at hok
              simp only [] at hok
              injection hok with hok
              injection hok with ho h3
              rw [← ho, ← h3]
              obtain ⟨entOut, relOut, hrecs, hEty, hRty, htE, htR⟩ :=
                addToolOutput_ids kb v.anns _ ids recs ids1 ha
              obtain ⟨ihE, ihR⟩ := ih ids1 outs2 ids2 h2
              have hflat : (({ docid := some dv, anns := recs } : OutView) :: outs2).flatMap
                  (fun o => o.anns) = recs ++ outs2.flatMap (fun o => o.anns) := by
                rw [List.flatMap_cons]
              rw [hflat, hrecs]
              constructor
              · have hfil : ((entOut ++ relOut) ++ outs2.flatMap (fun o => o.anns)).filter
                    (fun r => r.atType == UriNEL) =
                    entOut ++ (outs2.flatMap (fun o => o.anns)).filter
                      (fun r => r.atType == UriNEL) := by
                  rw [List.filter_append, List.filter_append,
                    filter_all_eq entOut UriNEL hEty,
                    filter_none_eq relOut UriNEL UriNELR hRty (by decide),
                    List.append_nil]
                rw [hfil]
                exact idTrace_append "nel" _ _ ids ids1 ids2 htE ihE
              · have hfil : ((entOut ++ relOut) ++ outs2.flatMap (fun o => o.anns)).filter
                    (fun r => r.atType == UriNELR) =
                    relOut ++ (outs2.flatMap (fun o => o.anns)).filter
                      (fun r => r.atType == UriNELR) := by
                  rw [List.filter_append, List.filter_append,
                    filter_all_eq relOut UriNELR hRty,
                    filter_none_eq entOut UriNELR UriNEL hEty (by decide)]
                  rfl
                rw [hfil]
                exact idTrace_append "nelr" _ _ ids ids1 ids2 htR ihR
    · rw [if_neg hel] at hok
      exact ih ids outs ids' hok

theorem idsFrom_head_one (pfx : String) (n : Nat) (h : ¬n = 0) :
    (idsFrom pfx 0 n).head? = some (pfx ++ natStr 1) := by
  cases n with
  | zero => exact absurd rfl h
  | succ m => rw [idsFrom_cons]; rfl

/-- C4: within one top-level annotate invocation, the identifiers of the
emitted entity-link records are exactly the prefix "nel" concatenated with
the 1-based counter values 1, 2, ..., in emission order, hence pairwise
distinct, and likewise for the relation records with prefix "nelr"; the
counter state starts empty at the beginning of every annotate call (the
reset), so every run -- in particular a second run on a different
container -- begins again at "nel1" and "nelr1" rather than continuing
from a previous run. -/
theorem C4_identifier_uniqueness (kb : KB) (views : List View) (outs : List OutView)
    (hok : annotate kb views = Except.ok outs) :
    (((outs.flatMap (fun o => o.anns)).filter (fun r => r.atType == UriNEL)).map
        (fun r => r.id)).Nodup ∧
    (((outs.flatMap (fun o => o.anns)).filter (fun r => r.atType == UriNELR)).map
        (fun r => r.id)).Nodup ∧
    ((outs.flatMap (fun o => o.anns)).filter (fun r => r.atType == UriNEL)).map
        (fun r => r.id) =
      idsFrom "nel" 0
        ((outs.flatMap (fun o => o.anns)).filter (fun r => r.atType == UriNEL)).length ∧
    ((outs.flatMap (fun o => o.anns)).filter (fun r => r.atType == UriNELR)).map
        (fun r => r.id) =
      idsFrom "nelr" 0
        ((outs.flatMap (fun o => o.anns)).filter (fun r => r.atType == UriNELR)).length ∧
    ((outs.flatMap (fun o => o.anns)).filter (fun r => r.atType == UriNEL) ≠ [] →
      (((outs.flatMap (fun o => o.anns)).filter (fun r => r.atType == UriNEL)).map
        (fun r => r.id)).head? = some "nel1") ∧
    ((outs.flatMap (fun o => o.anns)).filter (fun r => r.atType == UriNELR) ≠ [] →
      (((outs.flatMap (fun o => o.anns)).filter (fun r => r.atType == UriNELR)).map
        (fun r => r.id)).head? = some "nelr1") := by
  unfold annotate at hok
  cases h1 : annotateViews kb views [] with
  | error e => rw [h1] at hok; simp at hok
  | ok t =>
    obtain ⟨outs0, ids'⟩ := t
    rw [h1] at hok
    simp only [] at hok
    injection hok with ho
    subst ho
    obtain ⟨⟨hEmap, _⟩, ⟨hRmap, _⟩⟩ := annotateViews_ids kb views [] outs0 ids' h1
    have hc0 : idCount ([] : IdState) "nel" = 0 := rfl
    have hc0r : idCount ([] : IdState) "nelr" = 0 := rfl
    rw [hc0] at hEmap
    rw [hc0r] at hRmap
    refine ⟨?_, ?_, hEmap, hRmap, ?_, ?_⟩
    · rw [hEmap]
      exact idsFrom_nodup _ _ _
    · rw [hRmap]
      exact idsFrom_nodup _ _ _
    · intro hne
      have hlen : ¬((outs0.flatMap (fun o => o.anns)).filter
          (fun r => r.atType == UriNEL)).length = 0 := by
        simpa [List.length_eq_zero] using hne
      rw [hEmap, idsFrom_head_one _ _ hlen]
      decide
    · intro hne
      have hlen : ¬((outs0.flatMap (fun o => o.anns)).filter
          (fun r => r.atType == UriNELR)).length = 0 := by
        simpa [List.length_eq_zero] using hne
      rw [hRmap, idsFrom_head_one _ _ hlen]
      decide

/-- Witness for C4 at a concrete run: scenario 1's single entity yields the
single identifier sequence nel1 and an empty relation sequence. -/
theorem C4_identifier_uniqueness_witness :
    ((([{ docid := some "v1:d1",
           anns := [{ atType := UriNEL, id := "nel1",
                      properties :=
                        [("start", Value.n 0), ("end", Value.n 5),
                         ("root_i", Value.n 3), ("text", Value.s "Paris"),
                         ("label", Value.s "Paris"), ("category", Value.s "GPE"),
                         ("description", Value.s "capital of France"),
                         ("wikidata_id", Value.s "Q90"),
                         ("url", Value.s "https://www.wikidata.org/wiki/Q90")] }] }] :
        List OutView).flatMap (fun o => o.anns)).filter
        (fun r => r.atType == UriNEL)).map (fun r => r.id) = idsFrom "nel" 0 1 ∧
    ((([{ docid := some "v1:d1",
           anns := [{ atType := UriNEL, id := "nel1",
                      properties :=
                        [("start", Value.n 0), ("end", Value.n 5),
                         ("root_i", Value.n 3), ("text", Value.s "Paris"),
                         ("label", Value.s "Paris"), ("category", Value.s "GPE"),
                         ("description", Value.s "capital of France"),
                         ("wikidata_id", Value.s "Q90"),
                         ("url", Value.s "https://www.wikidata.org/wiki/Q90")] }] }] :
        List OutView).flatMap (fun o => o.anns)).filter
        (fun r => r.atType == UriNELR)).map (fun r => r.id) = idsFrom "nelr" 0 0 := by
  have h := C4_identifier_uniqueness kbScenario1 [viewScenario1Cat]
    [{ docid := some "v1:d1",
       anns := [{ atType := UriNEL, id := "nel1",
                  properties :=
                    [("start", Value.n 0), ("end", Value.n 5),
                     ("root_i", Value.n 3), ("text", Value.s "Paris"),
                     ("label", Value.s "Paris"), ("category", Value.s "GPE"),
                     ("description", Value.s "capital of France"),
                     ("wikidata_id", Value.s "Q90"),
                     ("url", Value.s "https://www.wikidata.org/wiki/Q90")] }] }] rfl
  exact ⟨h.2.2.1, h.2.2.2.1⟩
